import Mathlib

/-!
Shallow embedding of `pymnet/net.py`: the general multilayer network store
(`MultilayerNetwork`, a nested-dictionary adjacency tensor) and the multiplex
specialization (`MultiplexNetwork`, per-layer-combination intra-layer stores
plus analytically evaluated coupling edges).

Python dictionaries are modelled as association lists (insertion-ordered,
unique keys in every reachable state); Python sets as duplicate-free lists;
node labels, layer labels and edge weights as `Int`; tuples as `List Int`.
A Python operation that can raise is modelled either with an explicit raised
flag or with an `Option` result (`none` = exception).  `l.getD i 0` models the
in-range subscript `l[i]`; every theorem that relies on it carries the length
hypotheses under which the subscript is in range in the Python code.
-/

set_option maxRecDepth 4000

namespace Pymnet

abbrev Wt := Int

abbrev Node := List Int

/-- Dictionary lookup `d[k]` (as `Option`): first entry with the given key. -/
def alookup {α β : Type} [DecidableEq α] : List (α × β) → α → Option β
  | [], _ => none
  | p :: t, k => if p.1 = k then some p.2 else alookup t k

/-- Dictionary assignment `d[k] = v`: replace the entry if the key is present,
otherwise append it (Python dicts keep insertion order). -/
def aset {α β : Type} [DecidableEq α] (l : List (α × β)) (k : α) (v : β) :
    List (α × β) :=
  if (alookup l k).isSome then l.map (fun p => if p.1 = k then (k, v) else p)
  else l ++ [(k, v)]

/-- Dictionary deletion `del d[k]` (of a key known to be present). -/
def aerase {α β : Type} [DecidableEq α] (l : List (α × β)) (k : α) :
    List (α × β) :=
  l.filter (fun p => decide (p.1 ≠ k))

/-- The keys of a dictionary, in insertion order. -/
def akeys {α β : Type} (l : List (α × β)) : List α := l.map Prod.fst

/-- `s.add(x)` on a Python set modelled as a duplicate-free list. -/
def insertSet {α : Type} [DecidableEq α] (s : List α) (x : α) : List α :=
  if x ∈ s then s else s ++ [x]

/-- The elements of a list at even positions: `l[0::2]`. -/
def evens : List Int → List Int
  | [] => []
  | [a] => [a]
  | a :: _ :: t => a :: evens t

/-- The elements of a list at odd positions: `l[1::2]`. -/
def odds : List Int → List Int
  | [] => []
  | [_] => []
  | _ :: b :: t => b :: odds t

/-- `MultilayerNetwork._link_to_nodes`: from `(i,j,s1,r1,...,sd,rd)` to the
pair of node coordinates `((i,s1,...,sd), (j,r1,...,rd))`. -/
def linkToNodes (link : List Int) : Node × Node :=
  match link with
  | i :: j :: rest => (i :: evens rest, j :: odds rest)
  | _ => ([], [])

/-- `MultilayerNetwork._nodes_to_link`: interleave two node coordinates of
equal length into the link tuple `(i,j,s1,r1,...,sd,rd)`. -/
def nodesToLink : Node → Node → List Int
  | a :: as, b :: bs => a :: b :: nodesToLink as bs
  | _, _ => []

/-- `l[k] := l[k], l[k]` for each layer entry: helper for short links. -/
def dupEach : List Int → List Int
  | [] => []
  | a :: t => a :: a :: dupEach t

/-- `MultilayerNetwork._short_link_to_link`: expand `(i,j,s1,...,sd)` into
`(i,j,s1,s1,...,sd,sd)`. -/
def shortLinkToLink (slink : List Int) : List Int :=
  slink.take 2 ++ dupEach (slink.drop 2)

/-- The link with its two node halves swapped. -/
def swapLink (link : List Int) : List Int :=
  nodesToLink (linkToNodes link).2 (linkToNodes link).1

/-- `itertools.product(*ls)` over a list of lists, in the same order. -/
def listProd : List (List Int) → List (List Int)
  | [] => [[]]
  | s :: rest => s.foldr (fun x acc => (listProd rest).map (x :: ·) ++ acc) []

/-- The state of a `MultilayerNetwork`: aspect count, no-edge sentinel,
directedness, the per-aspect label registries `self.slices`, and the nested
adjacency dictionary `self._net`. -/
structure MNet where
  aspects : Nat
  noEdge : Wt
  directed : Bool
  slices : List (List Int)
  net : List (Node × List (Node × Wt))
deriving DecidableEq

/-- `MultilayerNetwork.__init__`: `directed` as given, `_init_slices` makes
one empty registry per aspect plus one for the nodes, `_net` empty. -/
def mnetInit (aspects : Nat) (noEdge : Wt) (directed : Bool) : MNet :=
  { aspects := aspects, noEdge := noEdge, directed := directed,
    slices := List.replicate (aspects + 1) [], net := [] }

/-- `MultilayerNetwork.add_node`: `self.slices[aspect].add(node)`.
Callers always pass `aspect <= self.aspects` (Python raises otherwise). -/
def MNet.addNode (m : MNet) (node : Int) (aspect : Nat) : MNet :=
  { m with slices := m.slices.set aspect (insertSet (m.slices.getD aspect []) node) }

/-- The double dictionary lookup `net[node1][node2]` (as `Option`). -/
def nlookup2 (net : List (Node × List (Node × Wt))) (u v : Node) : Option Wt :=
  (alookup net u).bind (fun d => alookup d v)

/-- The double dictionary lookup `self._net[node1][node2]` (as `Option`). -/
def alookup2 (m : MNet) (u v : Node) : Option Wt :=
  nlookup2 m.net u v

/-- `MultilayerNetwork._get_link`: link weight, or `noEdge` if either level
of the adjacency dictionary misses. -/
def MNet.getLink (m : MNet) (link : List Int) : Wt :=
  match alookup m.net (linkToNodes link).1 with
  | none => m.noEdge
  | some d =>
      match alookup d (linkToNodes link).2 with
      | none => m.noEdge
      | some w => w

/-- `if not node in self._net: self._net[node] = {}`. -/
def ensureKey (net : List (Node × List (Node × Wt))) (n : Node) :
    List (Node × List (Node × Wt)) :=
  if (alookup net n).isSome then net else net ++ [(n, [])]

/-- `self._net[n][a] = v` (with `n` already a key of the outer dict). -/
def writeEdge (net : List (Node × List (Node × Wt))) (n a : Node) (v : Wt) :
    List (Node × List (Node × Wt)) :=
  aset net n (aset ((alookup net n).getD []) a v)

/-- `MultilayerNetwork._set_link`.  Returns the post state together with a
flag telling whether the call raised `KeyError` (the mirror deletion
`del self._net[node2][node1]` of an undirected store can raise after the
first deletion already happened; the state mutated so far is kept). -/
def MNet.setLink (m : MNet) (link : List Int) (v : Wt) : MNet × Bool :=
  let n1 := (linkToNodes link).1
  let n2 := (linkToNodes link).2
  if v = m.noEdge then
    match alookup m.net n1 with
    | none => (m, false)
    | some d1 =>
        if (alookup d1 n2).isSome then
          let net1 := aset m.net n1 (aerase d1 n2)
          if m.directed then ({ m with net := net1 }, false)
          else
            match alookup net1 n2 with
            | none => ({ m with net := net1 }, true)
            | some d2 =>
                if (alookup d2 n1).isSome then
                  ({ m with net := aset net1 n2 (aerase d2 n1) }, false)
                else ({ m with net := net1 }, true)
        else (m, false)
  else
    let net2 := ensureKey (ensureKey m.net n1) n2
    let net3 := writeEdge net2 n1 n2 v
    if m.directed then ({ m with net := net3 }, false)
    else ({ m with net := writeEdge net3 n2 n1 v }, false)

/-- The dims filter test of `MultilayerNetwork._iter_neighbors`:
`all(dims[i]==None or neigh[i]==dims[i] for i in range(len(dims)))`. -/
def matchesDims : List (Option Int) → List Int → Bool
  | [], _ => true
  | none :: ds, ns => matchesDims ds ns.tail
  | some _ :: _, [] => false
  | some d :: ds, n :: ns => n = d && matchesDims ds ns

/-- `MultilayerNetwork._iter_neighbors` (as the finite list the generator
produces): the neighbor keys of `node`, filtered by `dims` when given. -/
def MNet.iterNeighbors (m : MNet) (node : Node) (dims : Option (List (Option Int))) :
    List Node :=
  match alookup m.net node with
  | none => []
  | some d =>
      match dims with
      | none => akeys d
      | some ds => (akeys d).filter (matchesDims ds)

/-- `MultilayerNetwork._get_degree`. -/
def MNet.getDegree (m : MNet) (node : Node) (dims : Option (List (Option Int))) :
    Nat :=
  match dims with
  | none =>
      match alookup m.net node with
      | none => 0
      | some d => d.length
  | some _ => (m.iterNeighbors node dims).length

/-- `MultilayerNetwork._get_strength`: sum of `_get_link` over the
neighbors produced by `_iter_neighbors`. -/
def MNet.getStrength (m : MNet) (node : Node) (dims : Option (List (Option Int))) :
    Wt :=
  ((m.iterNeighbors node dims).map (fun n => m.getLink (nodesToLink node n))).sum

/-- Errors surfaced by the subscript-assignment operations. -/
inductive SetErr where
  | arity
  | selfLink
  | readOnly
  | keyA
  | keyDel
deriving DecidableEq

/-- The node-registration loop of `MultilayerNetwork.__setitem__`:
`for i in range(2*d): self.add_node(link[i], floor(i/2))`. -/
def MNet.addLinkNodes (m : MNet) (link : List Int) : MNet :=
  (List.range (2 * (m.aspects + 1))).foldl
    (fun acc i => acc.addNode (link.getD i 0) (i / 2)) m

/-- `MultilayerNetwork.__setitem__` (with an index tuple of ints): resolve
the arity, register every node and layer of the link, then `_set_link`. -/
def MNet.setitem (m : MNet) (item : List Int) (v : Wt) : MNet × Option SetErr :=
  let d := m.aspects + 1
  if item.length = 2 * d ∨ item.length = d + 1 then
    let link := if item.length = 2 * d then item else shortLinkToLink item
    let m1 := m.addLinkNodes link
    let r := m1.setLink link v
    (r.1, if r.2 then some SetErr.keyDel else none)
  else (m, some SetErr.arity)

/-- One step of the undirected branch of the `MultilayerNetwork.edges`
generator: visit the coordinates in order, for each one emit the links to all
neighbors not yet visited, then add the coordinate to the visited set. -/
def MNet.edgesAux (m : MNet) : List Node → List Node → List (List Int × Wt)
  | [], _ => []
  | node :: rest, iterated =>
      (((m.iterNeighbors node none).filter (fun n => decide (n ∉ iterated))).map
        (fun neigh => (nodesToLink node neigh, m.getLink (nodesToLink node neigh))))
      ++ m.edgesAux rest (iterated ++ [node])

/-- `MultilayerNetwork.edges`: iterate the cartesian product of all slices;
directed stores emit every adjacency entry, undirected stores deduplicate
with the `iterated` set. -/
def MNet.edges (m : MNet) : List (List Int × Wt) :=
  if m.directed then
    (listProd m.slices).foldr
      (fun node acc =>
        ((m.iterNeighbors node none).map
          (fun neigh => (nodesToLink node neigh, m.getLink (nodesToLink node neigh))))
        ++ acc) []
  else m.edgesAux (listProd m.slices) []

/-- A coupling of a `MultiplexNetwork`: the tuples `("categorical", w)` and
`("ordinal", w)`, or a 1-tuple holding an auxiliary `MultilayerNetwork`. -/
inductive Coupling where
  | categorical (w : Wt)
  | ordinal (w : Wt)
  | network (net : MNet)
deriving DecidableEq

/-- The state of a `MultiplexNetwork`: coupling policies, label registries,
the node-to-layer-combinations index `self._nodeToLayers` (used only when not
fully interconnected) and the per-layer-combination stores `self.A`.  `A` is
keyed by the full layer-combination tuple; the source keys it by the bare
label when `aspects == 1` and unwraps singleton tuples accordingly, which is
the same map up to that packaging. -/
structure MPNet where
  aspects : Nat
  noEdge : Wt
  directed : Bool
  fullyInterconnected : Bool
  couplings : List Coupling
  slices : List (List Int)
  nodeToLayers : List (Int × List (List Int))
  A : List (List Int × MNet)
deriving DecidableEq

/-- `MultiplexNetwork.__init__` with a list of couplings. -/
def mpInit (couplings : List Coupling) (directed : Bool) (noEdge : Wt)
    (fullyInterconnected : Bool) : MPNet :=
  { aspects := couplings.length, noEdge := noEdge, directed := directed,
    fullyInterconnected := fullyInterconnected, couplings := couplings,
    slices := List.replicate (couplings.length + 1) [], nodeToLayers := [], A := [] }

/-- `MultiplexNetwork._get_edge_inter_aspects`: the aspects at which the two
halves of the link differ, in increasing order. -/
def interAspects (aspects : Nat) (link : List Int) : List Nat :=
  (List.range (aspects + 1)).filter
    (fun d => decide (link.getD (2 * d) 0 ≠ link.getD (2 * d + 1) 0))

/-- `MultiplexNetwork._get_A_with_tuple` (as `Option`; `none` = `KeyError`). -/
def MPNet.getA (m : MPNet) (layer : List Int) : Option MNet :=
  alookup m.A layer

/-- `MultiplexNetwork._has_layer_with_tuple`. -/
def MPNet.hasLayer (m : MPNet) (layer : List Int) : Bool :=
  (m.getA layer).isSome

/-- `MultiplexNetwork._add_A`: install a fresh intra-layer store for the
given layer combination.  The fresh store is
`MultilayerNetworkWithParent(aspects=0)`, so its `noEdge` is 0 and it is
undirected regardless of the parent's parameters. -/
def MPNet.addA (m : MPNet) (key : List Int) : MPNet :=
  { m with A := aset m.A key (mnetInit 0 0 false) }

/-- `MultiplexNetwork.add_node`: a new label in an aspect `> 0` instantiates
one intra-layer store per combination of the other aspects' existing labels
(the bare label when there is a single aspect); then the label is registered
in its slice via the parent method. -/
def MPNet.addNode (m : MPNet) (node : Int) (aspect : Nat) : MPNet :=
  if node ∈ m.slices.getD aspect [] then m
  else
    let m1 :=
      if 0 < aspect then
        if 1 < m.aspects then
          (listProd (((m.slices.drop 1).set (aspect - 1) [node]))).foldl
            (fun acc s => acc.addA s) m
        else m.addA [node]
      else m
    { m1 with slices := m1.slices.set aspect (insertSet (m1.slices.getD aspect []) node) }

/-- `MultilayerNetworkWithParent.add_node` for an intra-layer store owned by
a multiplex parent under the given combination key: register the node with
the parent (aspect 0), register it in the store's own slice 0, and when the
parent is not fully interconnected record the combination in
`parent._nodeToLayers[node]`. -/
def MPNet.subAddNode (m : MPNet) (key : List Int) (sub : MNet) (node : Int) :
    MPNet × MNet :=
  let m1 := m.addNode node 0
  let sub1 := sub.addNode node 0
  let m2 :=
    if m1.fullyInterconnected then m1
    else
      { m1 with nodeToLayers :=
          match alookup m1.nodeToLayers node with
          | none => aset m1.nodeToLayers node [key]
          | some s => aset m1.nodeToLayers node (insertSet s key) }
  (m2, sub1)

/-- `MultiplexNetwork._set_link`: only links whose halves differ exactly in
aspect 0 are written, into `self.A[link[2::2]]` (whose subscript assignment
first registers both endpoints via `MultilayerNetworkWithParent.add_node`).
A self-link or a coupling position raises `KeyError`. -/
def MPNet.setLink (m : MPNet) (link : List Int) (v : Wt) : MPNet × Option SetErr :=
  let ds := interAspects m.aspects link
  if ds = [0] then
    let S := evens (link.drop 2)
    match m.getA S with
    | none => (m, some SetErr.keyA)
    | some sub =>
        let r1 := m.subAddNode S sub (link.getD 0 0)
        let r2 := r1.1.subAddNode S r1.2 (link.getD 1 0)
        let r3 := r2.2.setLink [link.getD 0 0, link.getD 1 0] v
        ({ r2.1 with A := aset r2.1.A S r3.1 },
         if r3.2 then some SetErr.keyDel else none)
  else if ds = [] then (m, some SetErr.selfLink)
  else (m, some SetErr.readOnly)

/-- `MultiplexNetwork.__setitem__` (inherited from `MultilayerNetwork`, with
the overridden `add_node` and `_set_link`). -/
def MPNet.setitem (m : MPNet) (item : List Int) (v : Wt) : MPNet × Option SetErr :=
  let d := m.aspects + 1
  if item.length = 2 * d ∨ item.length = d + 1 then
    let link := if item.length = 2 * d then item else shortLinkToLink item
    let m1 := (List.range (2 * d)).foldl
      (fun acc i => acc.addNode (link.getD i 0) (i / 2)) m
    m1.setLink link v
  else (m, some SetErr.arity)

/-- The partial-interconnection eligibility test of
`MultiplexNetwork._get_link` for a coupling link (as `Option Bool`;
`none` = `KeyError` on a missing layer combination; the conjunction
short-circuits like the Python `and`). -/
def MPNet.couplingCheck (m : MPNet) (link : List Int) : Option Bool :=
  if m.fullyInterconnected then some true
  else
    match m.getA ((linkToNodes link).1.drop 1) with
    | none => none
    | some s1 =>
        if link.getD 0 0 ∈ s1.slices.getD 0 [] then
          match m.getA ((linkToNodes link).2.drop 1) with
          | none => none
          | some s2 => some (decide (link.getD 0 0 ∈ s2.slices.getD 0 []))
        else some false

/-- `MultiplexNetwork._get_link` (as `Option`; `none` = raised): a link whose
halves differ in exactly one aspect `k > 0` is answered by the coupling of
aspect `k`; a link differing exactly in aspect 0 is delegated to the
intra-layer store of its layer combination; everything else is `noEdge`. -/
def MPNet.getLink (m : MPNet) (link : List Int) : Option Wt :=
  match interAspects m.aspects link with
  | [k] =>
      if 0 < k then
        if link.getD 0 0 ∉ m.slices.getD 0 [] then some m.noEdge
        else
          match m.couplingCheck link with
          | none => none
          | some false => some m.noEdge
          | some true =>
              match m.couplings.get? (k - 1) with
              | none => none
              | some (Coupling.categorical w) => some w
              | some (Coupling.ordinal w) =>
                  if link.getD (2 * k) 0 + 1 = link.getD (2 * k + 1) 0
                      ∨ link.getD (2 * k) 0 = link.getD (2 * k + 1) 0 + 1
                  then some w else some m.noEdge
              | some (Coupling.network aux) =>
                  some (aux.getLink [link.getD (2 * k) 0, link.getD (2 * k + 1) 0])
      else
        if m.hasLayer (evens (link.drop 2)) then
          match m.getA (evens (link.drop 2)) with
          | none => none
          | some sub => some (sub.getLink [link.getD 0 0, link.getD 1 0])
        else some m.noEdge
  | _ => some m.noEdge

/-- `int(cond)` in the degree computations. -/
def boolInt (b : Bool) : Int := if b then 1 else 0

/-- `MultiplexNetwork._get_dim_degree` for an aspect `>= 1` (as `Option`;
`none` = raised: a missing `_nodeToLayers` key, or the `x[aspect]` subscript
in the partial categorical branch running past the end of a layer tuple). -/
def MPNet.getDimDegree (m : MPNet) (supernode : Node) (aspect : Nat) : Option Int :=
  match m.couplings.get? (aspect - 1) with
  | none => none
  | some (Coupling.categorical _) =>
      if m.fullyInterconnected then
        some ((m.slices.getD aspect []).length - 1)
      else
        match alookup m.nodeToLayers (supernode.getD 0 0) with
        | none => none
        | some lset =>
            if supernode.drop 1 ∈ lset then
              if m.aspects = 1 then some ((lset.length : Int) - 1)
              else
                if lset.all (fun x => decide (aspect < x.length)) then
                  some (((lset.filter
                    (fun x => decide (x.getD aspect 0 = supernode.getD aspect 0))).length : Int) - 1)
                else none
            else some 0
  | some (Coupling.ordinal _) =>
      if m.fullyInterconnected then
        some (boolInt (decide (supernode.getD aspect 0 + 1 ∈ m.slices.getD aspect []))
            + boolInt (decide (supernode.getD aspect 0 - 1 ∈ m.slices.getD aspect [])))
      else
        match alookup m.nodeToLayers (supernode.getD 0 0) with
        | none => none
        | some lset =>
            some (boolInt (decide ((supernode.take aspect ++ [supernode.getD aspect 0 + 1]
                    ++ supernode.drop (aspect + 1)) ∈ lset))
                + boolInt (decide ((supernode.take aspect ++ [supernode.getD aspect 0 - 1]
                    ++ supernode.drop (aspect + 1)) ∈ lset)))
  | some (Coupling.network aux) =>
      some (((alookup aux.net [supernode.getD aspect 0]).map List.length).getD 0)

/-- `MultiplexNetwork._get_dim_strength`: degree times coupling weight; an
auxiliary-network coupling raises (the `couplings[aspect-1][1]` subscript on
the 1-tuple fails before the explicit `raise` is even reached). -/
def MPNet.getDimStrength (m : MPNet) (supernode : Node) (aspect : Nat) : Option Wt :=
  match m.couplings.get? (aspect - 1) with
  | none => none
  | some (Coupling.network _) => none
  | some (Coupling.categorical w) => (m.getDimDegree supernode aspect).map (· * w)
  | some (Coupling.ordinal w) => (m.getDimDegree supernode aspect).map (· * w)

/-- `MultiplexNetwork._iter_dim` (as the list of produced coordinates;
`none` = raised, in particular the `NotImplemented` for network couplings). -/
def MPNet.iterDim (m : MPNet) (supernode : Node) (aspect : Nat) :
    Option (List Node) :=
  match m.couplings.get? (aspect - 1) with
  | none => none
  | some (Coupling.categorical _) =>
      if m.fullyInterconnected then
        some (((m.slices.getD aspect []).filter
            (fun n => decide (n ≠ supernode.getD aspect 0))).map
          (fun n => supernode.take aspect ++ [n] ++ supernode.drop (aspect + 1)))
      else
        match m.getA (supernode.drop 1) with
        | none => none
        | some sub =>
            if supernode.getD 0 0 ∈ sub.slices.getD 0 [] then
              match alookup m.nodeToLayers (supernode.getD 0 0) with
              | none => none
              | some lset =>
                  some ((lset.filter (fun ls => decide (ls ≠ supernode.drop 1))).map
                    (fun ls => supernode.getD 0 0 :: ls))
            else some []
  | some (Coupling.ordinal _) =>
      let up := supernode.getD aspect 0 + 1
      let down := supernode.getD aspect 0 - 1
      let upC := supernode.take aspect ++ [up] ++ supernode.drop (aspect + 1)
      let downC := supernode.take aspect ++ [down] ++ supernode.drop (aspect + 1)
      if m.fullyInterconnected then
        some ((if up ∈ m.slices.getD aspect [] then [upC] else [])
            ++ (if down ∈ m.slices.getD aspect [] then [downC] else []))
      else
        match alookup m.nodeToLayers (supernode.getD 0 0) with
        | none => none
        | some lset =>
            some ((if ((supernode.drop 1).take (aspect - 1) ++ [up]
                    ++ supernode.drop (aspect + 1)) ∈ lset then [upC] else [])
                ++ (if ((supernode.drop 1).take (aspect - 1) ++ [down]
                    ++ supernode.drop (aspect + 1)) ∈ lset then [downC] else []))
  | some (Coupling.network _) => none

/-- `MultiplexNetwork._select_dimensions`: with no filter every aspect is
selected; otherwise any fixed position that mismatches the node deselects
everything, and the wildcard (`None`) positions are selected. -/
def MPNet.selectDimensions (m : MPNet) (node : Node)
    (dims : Option (List (Option Int))) : List Nat :=
  match dims with
  | none => List.range (m.aspects + 1)
  | some ds =>
      if (List.range ds.length).all
          (fun i => match ds.getD i none with
            | none => true
            | some v => decide (node.getD i 0 = v)) then
        (List.range ds.length).filter (fun i => decide (ds.getD i none = none))
      else []

/-- The aspect-`d` contribution to `MultiplexNetwork._get_degree`:
the node's degree inside its own intra-layer store for aspect 0, the
coupling degree for an aspect `> 0`. -/
def MPNet.degStep (m : MPNet) (node : Node) (d : Nat) : Option Int :=
  if d = 0 then
    match m.getA (node.drop 1) with
    | none => none
    | some sub =>
        some (((alookup sub.net [node.getD 0 0]).map List.length).getD 0 : Nat)
  else m.getDimDegree node d

/-- `MultiplexNetwork._get_degree`. -/
def MPNet.getDegree (m : MPNet) (node : Node) (dims : Option (List (Option Int))) :
    Option Int :=
  (m.selectDimensions node dims).foldl
    (fun acc d => acc.bind (fun k => (m.degStep node d).map (k + ·))) (some 0)

/-- The aspect-`d` contribution to `MultiplexNetwork._get_strength`. -/
def MPNet.strStep (m : MPNet) (node : Node) (d : Nat) : Option Wt :=
  if d = 0 then
    match m.getA (node.drop 1) with
    | none => none
    | some sub => some (sub.getStrength [node.getD 0 0] none)
  else m.getDimStrength node d

/-- `MultiplexNetwork._get_strength`. -/
def MPNet.getStrength (m : MPNet) (node : Node) (dims : Option (List (Option Int))) :
    Option Wt :=
  (m.selectDimensions node dims).foldl
    (fun acc d => acc.bind (fun s => (m.strStep node d).map (s + ·))) (some 0)

/-- The aspect-`d` contribution to `MultiplexNetwork._iter_neighbors`: the
intra-layer neighbors re-wrapped with the node's layer combination for aspect
0, the coupling coordinates for an aspect `> 0`. -/
def MPNet.neighStep (m : MPNet) (node : Node) (d : Nat) : Option (List Node) :=
  if d = 0 then
    match m.getA (node.drop 1) with
    | none => none
    | some sub =>
        some ((sub.iterNeighbors [node.getD 0 0] none).map
          (fun n => n.getD 0 0 :: node.drop 1))
  else m.iterDim node d

/-- `MultiplexNetwork._iter_neighbors` (as the produced list). -/
def MPNet.iterNeighbors (m : MPNet) (node : Node)
    (dims : Option (List (Option Int))) : Option (List Node) :=
  (m.selectDimensions node dims).foldl
    (fun acc d => acc.bind (fun l => (m.neighStep node d).map (l ++ ·))) (some [])

/-- One step of the undirected `edges` generator run on a multiplex store
(the inherited `MultilayerNetwork.edges` with the overridden
`_iter_neighbors` and `_get_link`, both of which can raise). -/
def MPNet.edgesAux (m : MPNet) : List Node → List Node → Option (List (List Int × Wt))
  | [], _ => some []
  | node :: rest, iterated =>
      match m.iterNeighbors node none with
      | none => none
      | some neighs =>
          match ((neighs.filter (fun n => decide (n ∉ iterated))).mapM
              (fun neigh => (m.getLink (nodesToLink node neigh)).map
                (fun w => (nodesToLink node neigh, w)))) with
          | none => none
          | some entries =>
              match m.edgesAux rest (iterated ++ [node]) with
              | none => none
              | some acc => some (entries ++ acc)

/-- `MultiplexNetwork`'s inherited `edges` property (undirected branch when
`directed` is false). -/
def MPNet.edges (m : MPNet) : Option (List (List Int × Wt)) :=
  if m.directed then
    (listProd m.slices).foldr
      (fun node acc =>
        match m.iterNeighbors node none with
        | none => none
        | some neighs =>
            match (neighs.mapM
                (fun neigh => (m.getLink (nodesToLink node neigh)).map
                  (fun w => (nodesToLink node neigh, w)))) with
            | none => none
            | some entries =>
                match acc with
                | none => none
                | some a => some (entries ++ a)) (some [])
  else m.edgesAux (listProd m.slices) []

/-- Concrete multiplex store for the C3 witness: one categorical aspect,
fully interconnected, with node 1 and layers 2, 3 registered. -/
def mpC3 : MPNet :=
  ((((mpInit [Coupling.categorical 1] false 0 true).addNode 1 0).addNode 2 1).addNode 3 1)

/-- Concrete multiplex store for the C7 ordinal witness: one ordinal aspect
of weight 2, fully interconnected, layers 1, 2, 3. -/
def mpC7 : MPNet :=
  (((mpInit [Coupling.ordinal 2] false 0 true).addNode 1 1).addNode 2 1).addNode 3 1

/-- Concrete multiplex store for the C8 witness: one ordinal aspect of
weight 4, fully interconnected, node 5 registered. -/
def mpC8 : MPNet :=
  ((((mpInit [Coupling.ordinal 4] false 0 true).addNode 5 0).addNode 1 1).addNode 2 1).addNode 3 1

/-- Concrete multiplex store for the C10 witness: one categorical aspect of
weight 1, fully interconnected, node 5 registered, no layer registered. -/
def mpC10 : MPNet := (mpInit [Coupling.categorical 1] false 0 true).addNode 5 0

/-- The states of a `MultilayerNetwork` constructed with `directed=False`
that are reachable by any sequence of `add_node` and `_set_link` calls. -/
inductive MNetReach : MNet → Prop where
  | init (aspects : Nat) (noEdge : Wt) : MNetReach (mnetInit aspects noEdge false)
  | addNode {m : MNet} (node : Int) (aspect : Nat) (h : MNetReach m) :
      MNetReach (m.addNode node aspect)
  | setLink {m : MNet} (link : List Int) (v : Wt) (h : MNetReach m) :
      MNetReach (m.setLink link v).1

/-- Concrete reachable undirected store for the C5 witness. -/
def mnetC5 : MNet := (((mnetInit 1 0 false).addNode 7 0).setLink [1, 2, 3, 3] 5).1

/-- Multiplex store with sentinel 7 before the deleting write (C2). -/
def mpC2a : MPNet := ((mpInit [Coupling.categorical 1] false 7 true).setitem [1, 2, 4] 3).1

/-- `mpC2a` after setting the same link to the sentinel 7. -/
def mpC2 : MPNet := (mpC2a.setitem [1, 2, 4] 7).1

/-- Small undirected general store for the C2 witness, with one edge. -/
def mnetC2 : MNet := ((mnetInit 1 0 false).setitem [2, 3, 3, 3] 4).1

/-- Fresh fully interconnected multiplex store (C1 counterexample). -/
def mpC1 : MPNet := mpInit [Coupling.categorical 1] false 0 true

/-- `mpC1` with one intra-layer edge `(1,2)` in layer 3 (C1 witness). -/
def mpC1w : MPNet := (mpC1.setitem [1, 2, 3] 5).1

/-- The intra-layer store of `mpC1w` for layer 3. -/
def subC1 : MNet :=
  { aspects := 0, noEdge := 0, directed := false, slices := [[1, 2]],
    net := [([1], [([2], 5)]), ([2], [([1], 5)])] }

/-- Small undirected general store with one edge, built by the public set
operation (C9 witness). -/
def mnetC9 : MNet := ((mnetInit 0 0 false).setitem [1, 2] 5).1

/-- Two-aspect categorical multiplex store, not fully interconnected, with
node 1 present in the layer combinations `(5,7)` and `(5,8)` that share the
aspect-1 label (C9 counterexample). -/
def c9x : MPNet :=
  (((mpInit [Coupling.categorical 1, Coupling.categorical 1] false 0 false).setitem
    [1, 2, 5, 5, 7, 7] 1).1.setitem [1, 3, 5, 5, 8, 8] 1).1

/-- Two-aspect categorical multiplex store, not fully interconnected, with
node 10 present in the layer combinations `(5,7)` and `(6,8)` (C6). -/
def c6m : MPNet :=
  (((mpInit [Coupling.categorical 1, Coupling.categorical 1] false 0 false).setitem
    [10, 11, 5, 5, 7, 7] 1).1.setitem [10, 12, 6, 6, 8, 8] 1).1

/-- The list of the integer layer labels `1..n`. -/
def intRange (n : Nat) : List Int :=
  (List.range n).map (fun (i : Nat) => (i : Int) + 1)

end Pymnet


namespace Pymnet

/-! ### Dictionary lemmas -/

theorem alookup_nil {α β : Type} [DecidableEq α] (k : α) :
    alookup ([] : List (α × β)) k = none := rfl

theorem alookup_cons {α β : Type} [DecidableEq α] (p : α × β) (t : List (α × β)) (k : α) :
    alookup (p :: t) k = if p.1 = k then some p.2 else alookup t k := rfl

theorem alookup_append_single {α β : Type} [DecidableEq α] (l : List (α × β)) (k k' : α)
    (v : β) : alookup (l ++ [(k, v)]) k' =
      match alookup l k' with
      | some w => some w
      | none => if k = k' then some v else none := by
  induction l with
  | nil => simp [alookup_cons, alookup_nil]
  | cons p t ih =>
      by_cases hp : p.1 = k'
      · simp [alookup_cons, hp]
      · simp only [List.cons_append, alookup_cons, if_neg hp]
        exact ih

theorem alookup_map_replace_self {α β : Type} [DecidableEq α] (l : List (α × β))
    (k : α) (v : β) (h : (alookup l k).isSome) :
    alookup (l.map (fun p => if p.1 = k then (k, v) else p)) k = some v := by
  induction l with
  | nil => simp [alookup_nil] at h
  | cons p t ih =>
      by_cases hp : p.1 = k
      · simp [alookup_cons, hp]
      · rw [alookup_cons, if_neg hp] at h
        have hhead : (if p.1 = k then (k, v) else p) = p := if_neg hp
        simp only [List.map_cons, hhead, alookup_cons, if_neg hp]
        exact ih h

theorem alookup_map_replace_ne {α β : Type} [DecidableEq α] (l : List (α × β))
    (k k' : α) (v : β) (h : k' ≠ k) :
    alookup (l.map (fun p => if p.1 = k then (k, v) else p)) k' = alookup l k' := by
  induction l with
  | nil => simp
  | cons p t ih =>
      by_cases hp : p.1 = k
      · have hhead : (if p.1 = k then (k, v) else p) = (k, v) := if_pos hp
        have hpk : ¬ p.1 = k' := fun hh => h (hp ▸ hh ▸ rfl)
        simp only [List.map_cons, hhead, alookup_cons, if_neg (Ne.symm h), if_neg hpk]
        exact ih
      · have hhead : (if p.1 = k then (k, v) else p) = p := if_neg hp
        simp only [List.map_cons, hhead, alookup_cons]
        split
        · rfl
        · exact ih

theorem alookup_aset_self {α β : Type} [DecidableEq α] (l : List (α × β)) (k : α) (v : β) :
    alookup (aset l k v) k = some v := by
  unfold aset
  split
  · exact alookup_map_replace_self l k v (by assumption)
  · rw [alookup_append_single]
    rename_i h
    rw [Option.not_isSome_iff_eq_none] at h
    simp [h]

theorem alookup_aset_ne {α β : Type} [DecidableEq α] (l : List (α × β)) (k k' : α) (v : β)
    (h : k' ≠ k) : alookup (aset l k v) k' = alookup l k' := by
  unfold aset
  split
  · exact alookup_map_replace_ne l k k' v h
  · rw [alookup_append_single]
    cases hl : alookup l k' with
    | some w => rfl
    | none => simp [Ne.symm h]

theorem aerase_cons_drop {α β : Type} [DecidableEq α] (p : α × β) (t : List (α × β))
    (k : α) (hp : p.1 = k) : aerase (p :: t) k = aerase t k := by
  unfold aerase
  simp [List.filter_cons, hp]

theorem aerase_cons_keep {α β : Type} [DecidableEq α] (p : α × β) (t : List (α × β))
    (k : α) (hp : ¬ p.1 = k) : aerase (p :: t) k = p :: aerase t k := by
  unfold aerase
  simp [List.filter_cons, hp]

theorem alookup_aerase_self {α β : Type} [DecidableEq α] (l : List (α × β)) (k : α) :
    alookup (aerase l k) k = none := by
  induction l with
  | nil => rfl
  | cons p t ih =>
      by_cases hp : p.1 = k
      · rw [aerase_cons_drop p t k hp]
        exact ih
      · rw [aerase_cons_keep p t k hp, alookup_cons, if_neg hp]
        exact ih

theorem alookup_aerase_ne {α β : Type} [DecidableEq α] (l : List (α × β)) (k k' : α)
    (h : k' ≠ k) : alookup (aerase l k) k' = alookup l k' := by
  induction l with
  | nil => rfl
  | cons p t ih =>
      by_cases hp : p.1 = k
      · have hpk : ¬ p.1 = k' := by
          rw [hp]
          exact Ne.symm h
        rw [aerase_cons_drop p t k hp, ih, alookup_cons, if_neg hpk]
      · rw [aerase_cons_keep p t k hp, alookup_cons, alookup_cons]
        split
        · rfl
        · exact ih

theorem alookup_isSome_iff_mem_akeys {α β : Type} [DecidableEq α] (l : List (α × β)) (k : α) :
    (alookup l k).isSome ↔ k ∈ akeys l := by
  induction l with
  | nil => simp [alookup_nil, akeys]
  | cons p t ih =>
      by_cases hp : p.1 = k
      · simp [alookup_cons, hp, akeys]
      · simp [alookup_cons, hp, akeys, ih, Ne.symm hp]

theorem alookup_mem {α β : Type} [DecidableEq α] {l : List (α × β)} {k : α} {v : β}
    (h : alookup l k = some v) : (k, v) ∈ l := by
  induction l with
  | nil => simp [alookup_nil] at h
  | cons p t ih =>
      rw [alookup_cons] at h
      split at h
      · rename_i hp
        have hv : p.2 = v := by injection h
        have : p = (k, v) := by
          cases p
          simp only at hp hv
          rw [hp, hv]
        rw [← this]
        exact List.mem_cons_self _ _
      · exact List.mem_cons_of_mem _ (ih h)

end Pymnet

namespace Pymnet

/-! ### Addressing lemmas -/

theorem evens_getD (l : List Int) (a : Nat) : (evens l).getD a 0 = l.getD (2 * a) 0 := by
  induction l using evens.induct generalizing a with
  | case1 => simp [evens]
  | case2 x =>
      cases a with
      | zero => simp [evens]
      | succ a =>
          have h2 : 2 * (a + 1) = (2 * a + 1) + 1 := by omega
          simp [evens, h2, List.getD_cons_succ]
  | case3 x y t ih =>
      cases a with
      | zero => simp [evens]
      | succ a =>
          have h2 : 2 * (a + 1) = (2 * a + 1) + 1 := by omega
          simp only [evens, h2, List.getD_cons_succ]
          exact ih a

theorem odds_getD (l : List Int) (a : Nat) : (odds l).getD a 0 = l.getD (2 * a + 1) 0 := by
  induction l using odds.induct generalizing a with
  | case1 => simp [odds]
  | case2 x =>
      simp [odds, List.getD_cons_succ]
  | case3 x y t ih =>
      cases a with
      | zero => simp [odds]
      | succ a =>
          have h2 : 2 * (a + 1) + 1 = ((2 * a + 1) + 1) + 1 := by omega
          simp only [odds, h2, List.getD_cons_succ]
          exact ih a

theorem evens_length (l : List Int) : (evens l).length = (l.length + 1) / 2 := by
  induction l using evens.induct with
  | case1 => simp [evens]
  | case2 x => simp [evens]
  | case3 x y t ih =>
      simp only [evens, List.length_cons, ih]
      omega

theorem odds_length (l : List Int) : (odds l).length = l.length / 2 := by
  induction l using odds.induct with
  | case1 => simp [odds]
  | case2 x => simp [odds]
  | case3 x y t ih =>
      simp only [odds, List.length_cons, ih]
      omega

theorem evens_nodesToLink (n1 n2 : Node) (h : n1.length = n2.length) :
    evens (nodesToLink n1 n2) = n1 := by
  induction n1 generalizing n2 with
  | nil =>
      cases n2 with
      | nil => rfl
      | cons b bs => simp at h
  | cons a as ih =>
      cases n2 with
      | nil => simp at h
      | cons b bs =>
          have hl : as.length = bs.length := by simpa using h
          cases as with
          | nil =>
              cases bs with
              | nil => rfl
              | cons c cs => simp at hl
          | cons a2 as2 =>
              cases bs with
              | nil => simp at hl
              | cons b2 bs2 =>
                  have := ih (b2 :: bs2) hl
                  simp only [nodesToLink, evens] at this ⊢
                  rw [this]

theorem odds_nodesToLink (n1 n2 : Node) (h : n1.length = n2.length) :
    odds (nodesToLink n1 n2) = n2 := by
  induction n1 generalizing n2 with
  | nil =>
      cases n2 with
      | nil => rfl
      | cons b bs => simp at h
  | cons a as ih =>
      cases n2 with
      | nil => simp at h
      | cons b bs =>
          have hl : as.length = bs.length := by simpa using h
          cases as with
          | nil =>
              cases bs with
              | nil => rfl
              | cons c cs => simp at hl
          | cons a2 as2 =>
              cases bs with
              | nil => simp at hl
              | cons b2 bs2 =>
                  have := ih (b2 :: bs2) hl
                  simp only [nodesToLink, odds] at this ⊢
                  rw [this]

theorem linkToNodes_nodesToLink (n1 n2 : Node) (h : n1.length = n2.length) :
    linkToNodes (nodesToLink n1 n2) = (n1, n2) := by
  cases n1 with
  | nil =>
      cases n2 with
      | nil => rfl
      | cons b bs => simp at h
  | cons a as =>
      cases n2 with
      | nil => simp at h
      | cons b bs =>
          have hl : as.length = bs.length := by simpa using h
          simp [nodesToLink, linkToNodes, evens_nodesToLink as bs hl,
            odds_nodesToLink as bs hl]

theorem nodesToLink_length (n1 n2 : Node) (h : n1.length = n2.length) :
    (nodesToLink n1 n2).length = 2 * n1.length := by
  induction n1 generalizing n2 with
  | nil => simp [nodesToLink]
  | cons a as ih =>
      cases n2 with
      | nil => simp at h
      | cons b bs =>
          simp only [nodesToLink, List.length_cons, ih bs (by simpa using h)]
          omega

theorem nodesToLink_inj {n1 n2 m1 m2 : Node} (h1 : n1.length = n2.length)
    (h2 : m1.length = m2.length) (h : nodesToLink n1 n2 = nodesToLink m1 m2) :
    n1 = m1 ∧ n2 = m2 := by
  have e1 := linkToNodes_nodesToLink n1 n2 h1
  have e2 := linkToNodes_nodesToLink m1 m2 h2
  rw [h, e2] at e1
  have ha : n1 = m1 := by
    have := congrArg Prod.fst e1
    simpa using this.symm
  have hb : n2 = m2 := by
    have := congrArg Prod.snd e1
    simpa using this.symm
  exact ⟨ha, hb⟩

theorem linkToNodes_fst_getD (link : List Int) (hlen : 2 ≤ link.length) (a : Nat) :
    (linkToNodes link).1.getD a 0 = link.getD (2 * a) 0 := by
  match link, hlen with
  | i :: j :: rest, _ =>
      cases a with
      | zero => simp [linkToNodes]
      | succ a =>
          have h2 : 2 * (a + 1) = (2 * a + 1) + 1 := by omega
          simp only [linkToNodes, h2, List.getD_cons_succ]
          exact evens_getD rest a

theorem linkToNodes_snd_getD (link : List Int) (hlen : 2 ≤ link.length) (a : Nat) :
    (linkToNodes link).2.getD a 0 = link.getD (2 * a + 1) 0 := by
  match link, hlen with
  | i :: j :: rest, _ =>
      cases a with
      | zero => simp [linkToNodes]
      | succ a =>
          have h2 : 2 * (a + 1) + 1 = ((2 * a + 1) + 1) + 1 := by omega
          simp only [linkToNodes, h2, List.getD_cons_succ]
          exact odds_getD rest a

theorem linkToNodes_lengths (link : List Int) (n : Nat) (h : link.length = 2 * (n + 1)) :
    (linkToNodes link).1.length = n + 1 ∧ (linkToNodes link).2.length = n + 1 := by
  match link with
  | [] => simp at h
  | [x] => simp at h; omega
  | i :: j :: rest =>
      have hr : rest.length = 2 * n := by
        simp only [List.length_cons] at h
        omega
      constructor
      · simp only [linkToNodes, List.length_cons, evens_length, hr]
        omega
      · simp only [linkToNodes, List.length_cons, odds_length, hr]
        omega

theorem interAspects_eq_filter (aspects : Nat) (link : List Int) (hlen : 2 ≤ link.length) :
    interAspects aspects link = (List.range (aspects + 1)).filter
      (fun a => decide ((linkToNodes link).1.getD a 0 ≠ (linkToNodes link).2.getD a 0)) := by
  unfold interAspects
  apply List.filter_congr
  intro a _
  rw [linkToNodes_fst_getD link hlen a, linkToNodes_snd_getD link hlen a]

theorem interAspects_nodesToLink (aspects : Nat) (n1 n2 : Node)
    (h1 : n1.length = aspects + 1) (h2 : n2.length = aspects + 1) :
    interAspects aspects (nodesToLink n1 n2) = (List.range (aspects + 1)).filter
      (fun a => decide (n1.getD a 0 ≠ n2.getD a 0)) := by
  have hlen : 2 ≤ (nodesToLink n1 n2).length := by
    rw [nodesToLink_length n1 n2 (h1.trans h2.symm), h1]
    omega
  rw [interAspects_eq_filter aspects _ hlen,
    linkToNodes_nodesToLink n1 n2 (h1.trans h2.symm)]

end Pymnet

namespace Pymnet

/-! ### Claim C3 -/

/-- C3: on a multiplex store, `_get_link` answers the no-edge sentinel for
every full-form link whose two halves differ in zero aspects (a self-link)
or in two or more aspects. -/
theorem C3_degenerate_links_noEdge (m : MPNet) (link : List Int)
    (hlen : link.length = 2 * (m.aspects + 1))
    (hD : ((List.range (m.aspects + 1)).filter
      (fun a => decide ((linkToNodes link).1.getD a 0 ≠ (linkToNodes link).2.getD a 0))).length ≠ 1) :
    m.getLink link = some m.noEdge := by
  have h2 : 2 ≤ link.length := by omega
  have hIA : (interAspects m.aspects link).length ≠ 1 := by
    rw [interAspects_eq_filter m.aspects link h2]
    exact hD
  unfold MPNet.getLink
  cases hia : interAspects m.aspects link with
  | nil => simp
  | cons k t =>
      cases t with
      | nil =>
          rw [hia] at hIA
          simp at hIA
      | cons k2 t2 => simp

/-- Witness for C3 on `mpC3`: the self-link `(1,1,2,2)` and the doubly
differing link `(1,0,2,3)` both answer the sentinel. -/
theorem C3_witness :
    mpC3.getLink [1, 1, 2, 2] = some mpC3.noEdge ∧
    mpC3.getLink [1, 0, 2, 3] = some mpC3.noEdge :=
  ⟨C3_degenerate_links_noEdge mpC3 [1, 1, 2, 2] (by decide) (by decide),
   C3_degenerate_links_noEdge mpC3 [1, 0, 2, 3] (by decide) (by decide)⟩

/-! ### Claim C4 -/

/-- C4: `MultiplexNetwork._set_link` raises the self-link error when the two
halves of the link agree in every aspect, raises the read-only-coupling error
when they differ in an aspect other than 0 or in several aspects, and
succeeds only on links differing exactly in aspect 0 whose layer combination
has an intra-layer store. -/
theorem C4_setLink_dispatch (m : MPNet) (link : List Int) (v : Wt) :
    (interAspects m.aspects link = [] → m.setLink link v = (m, some SetErr.selfLink)) ∧
    (∀ k, interAspects m.aspects link = [k] → k ≠ 0 →
      m.setLink link v = (m, some SetErr.readOnly)) ∧
    (2 ≤ (interAspects m.aspects link).length →
      m.setLink link v = (m, some SetErr.readOnly)) ∧
    ((m.setLink link v).2 = none →
      interAspects m.aspects link = [0] ∧ (m.getA (evens (link.drop 2))).isSome) := by
  refine ⟨?_, ?_, ?_, ?_⟩
  · intro h
    unfold MPNet.setLink
    rw [h]
    simp
  · intro k h hk
    unfold MPNet.setLink
    rw [h]
    have : ¬ ([k] = [0]) := by simp [hk]
    simp [this]
  · intro h
    unfold MPNet.setLink
    cases hia : interAspects m.aspects link with
    | nil => rw [hia] at h; simp at h
    | cons a t =>
        cases t with
        | nil => rw [hia] at h; simp at h
        | cons b t2 => simp
  · intro h1
    unfold MPNet.setLink at h1
    by_cases hia : interAspects m.aspects link = [0]
    · simp only [hia, if_pos rfl] at h1
      refine ⟨hia, ?_⟩
      cases hA : m.getA (evens (link.drop 2)) with
      | none =>
          rw [hA] at h1
          simp at h1
      | some sub => simp
    · by_cases hnil : interAspects m.aspects link = []
      · simp [hia, hnil] at h1
      · simp [hia, hnil] at h1

/-- Witness for C4 on `mpC3`: a coupling link raises the read-only error, a
self-link raises the self-link error. -/
theorem C4_witness :
    mpC3.setLink [1, 1, 2, 3] 5 = (mpC3, some SetErr.readOnly) ∧
    mpC3.setLink [1, 1, 2, 2] 5 = (mpC3, some SetErr.selfLink) :=
  ⟨(C4_setLink_dispatch mpC3 [1, 1, 2, 3] 5).2.1 1 (by decide) (by decide),
   (C4_setLink_dispatch mpC3 [1, 1, 2, 2] 5).1 (by decide)⟩

end Pymnet

namespace Pymnet

/-! ### Claims C7, C8, C10 -/

theorem mem_intRange (n : Nat) (z : Int) : z ∈ intRange n ↔ 1 ≤ z ∧ z ≤ n := by
  constructor
  · intro h
    simp only [intRange, List.mem_map, List.mem_range] at h
    obtain ⟨i, hi, hz⟩ := h
    omega
  · intro h
    simp only [intRange, List.mem_map, List.mem_range]
    exact ⟨(z - 1).toNat, by omega, by omega⟩

theorem getDimDegree_ordinal_full (m : MPNet) (node : Node) (k : Nat) (w : Wt)
    (hfull : m.fullyInterconnected = true)
    (hc : m.couplings.get? (k - 1) = some (Coupling.ordinal w)) :
    m.getDimDegree node k =
      some (boolInt (decide (node.getD k 0 + 1 ∈ m.slices.getD k []))
          + boolInt (decide (node.getD k 0 - 1 ∈ m.slices.getD k []))) := by
  simp only [MPNet.getDimDegree, hc, hfull, if_true]

/-- C7: in a fully interconnected multiplex store the coupling-degree
contribution of a categorical aspect with `k` registered layers is `k - 1`
for every node coordinate, and the contribution of an ordinal aspect over the
integer layers `1..n` (`n >= 2`) is 2 at an interior layer and 1 at an end
layer. -/
theorem C7_coupling_degree_contributions :
    (∀ (m : MPNet) (node : Node) (k : Nat) (w : Wt),
      m.fullyInterconnected = true →
      m.couplings.get? (k - 1) = some (Coupling.categorical w) →
      (m.slices.getD k []).Nodup →
      m.getDimDegree node k = some (((m.slices.getD k []).length : Int) - 1)) ∧
    (∀ (m : MPNet) (node : Node) (k : Nat) (w : Wt) (n : Nat),
      m.fullyInterconnected = true →
      m.couplings.get? (k - 1) = some (Coupling.ordinal w) →
      m.slices.getD k [] = intRange n →
      1 ≤ node.getD k 0 → node.getD k 0 ≤ n →
      ((1 < node.getD k 0 → node.getD k 0 < n → m.getDimDegree node k = some 2) ∧
       ((node.getD k 0 = 1 ∨ node.getD k 0 = (n : Int)) → 2 ≤ n →
         m.getDimDegree node k = some 1))) := by
  constructor
  · intro m node k w hfull hc _
    simp only [MPNet.getDimDegree, hc, hfull, if_true]
  · intro m node k w n hfull hc hslice h1 h2
    have hdd := getDimDegree_ordinal_full m node k w hfull hc
    rw [hslice] at hdd
    constructor
    · intro hlo hhi
      rw [hdd]
      have hup : node.getD k 0 + 1 ∈ intRange n := (mem_intRange n _).mpr (by omega)
      have hdown : node.getD k 0 - 1 ∈ intRange n := (mem_intRange n _).mpr (by omega)
      rw [decide_eq_true hup, decide_eq_true hdown]
      rfl
    · intro hend hn
      rw [hdd]
      rcases hend with hone | htop
      · have hup : node.getD k 0 + 1 ∈ intRange n := (mem_intRange n _).mpr (by omega)
        have hdown : node.getD k 0 - 1 ∉ intRange n := by
          rw [mem_intRange]
          omega
        rw [decide_eq_true hup, decide_eq_false hdown]
        rfl
      · have hup : node.getD k 0 + 1 ∉ intRange n := by
          rw [mem_intRange]
          omega
        have hdown : node.getD k 0 - 1 ∈ intRange n := (mem_intRange n _).mpr (by omega)
        rw [decide_eq_false hup, decide_eq_true hdown]
        rfl

/-- Witness for C7: on `mpC3` (categorical, layers 2 and 3) every coordinate
has coupling degree 1; on `mpC7` (ordinal, layers 1,2,3) the interior layer 2
has coupling degree 2 and the end layer 1 has coupling degree 1. -/
theorem C7_witness :
    mpC3.getDimDegree [9, 9] 1 = some 1 ∧
    mpC7.getDimDegree [9, 2] 1 = some 2 ∧
    mpC7.getDimDegree [9, 1] 1 = some 1 := by
  refine ⟨?_, ?_, ?_⟩
  · exact C7_coupling_degree_contributions.1 mpC3 [9, 9] 1 1 (by decide) (by decide) (by decide)
  · exact (C7_coupling_degree_contributions.2 mpC7 [9, 2] 1 2 3 (by decide) (by decide)
      (by decide) (by decide) (by decide)).1 (by decide) (by decide)
  · exact (C7_coupling_degree_contributions.2 mpC7 [9, 1] 1 2 3 (by decide) (by decide)
      (by decide) (by decide) (by decide)).2 (Or.inl (by decide)) (by decide)

/-- C8: an ordinal coupling of weight `w` on aspect `k` answers `w` exactly
when the two differing labels are consecutive integers, and the sentinel
otherwise (shared node registered; eligibility check passing). -/
theorem C8_ordinal_coupling_weight (m : MPNet) (link : List Int) (k : Nat) (w : Wt)
    (hk : 0 < k)
    (hc : m.couplings.get? (k - 1) = some (Coupling.ordinal w))
    (hD : interAspects m.aspects link = [k])
    (hreg : link.getD 0 0 ∈ m.slices.getD 0 [])
    (hchk : m.couplingCheck link = some true) :
    m.getLink link =
      some (if (link.getD (2 * k) 0 - link.getD (2 * k + 1) 0).natAbs = 1
        then w else m.noEdge) := by
  have hreg2 : link[0]?.getD 0 ∈ m.slices[0]?.getD [] := by simpa using hreg
  have hc2 : m.couplings[k - 1]? = some (Coupling.ordinal w) := by simpa using hc
  have hmain : m.getLink link =
      if link.getD (2 * k) 0 + 1 = link.getD (2 * k + 1) 0
          ∨ link.getD (2 * k) 0 = link.getD (2 * k + 1) 0 + 1
      then some w else some m.noEdge := by
    simp [MPNet.getLink, hD, hk, hreg2, hchk, hc2]
  rw [hmain]
  by_cases hcons : (link.getD (2 * k) 0 - link.getD (2 * k + 1) 0).natAbs = 1
  · rw [if_pos (by omega), if_pos hcons]
  · rw [if_neg (by omega), if_neg hcons]

/-- Witness for C8 on `mpC8`: labels 1,2 are consecutive (weight 4), labels
1,3 are not (sentinel 0). -/
theorem C8_witness :
    mpC8.getLink [5, 5, 1, 2] = some 4 ∧ mpC8.getLink [5, 5, 1, 3] = some 0 := by
  constructor
  · have h := C8_ordinal_coupling_weight mpC8 [5, 5, 1, 2] 1 4 (by decide) (by decide)
      (by decide) (by decide) (by decide)
    simpa using h
  · have h := C8_ordinal_coupling_weight mpC8 [5, 5, 1, 3] 1 4 (by decide) (by decide)
      (by decide) (by decide) (by decide)
    simpa using h

/-- C10: with a fully interconnected categorical coupling, `_get_link` on a
coupling link checks only that the shared elementary id is registered in
slice 0 and never that the differing layer labels are registered. -/
theorem C10_categorical_ignores_layer_registration (m : MPNet) (link : List Int)
    (k : Nat) (w : Wt)
    (hfull : m.fullyInterconnected = true)
    (hc : m.couplings.get? (k - 1) = some (Coupling.categorical w))
    (hD : interAspects m.aspects link = [k]) (hk : 0 < k)
    (hreg : link.getD 0 0 ∈ m.slices.getD 0 []) :
    m.getLink link = some w := by
  have hreg2 : link[0]?.getD 0 ∈ m.slices[0]?.getD [] := by simpa using hreg
  have hc2 : m.couplings[k - 1]? = some (Coupling.categorical w) := by simpa using hc
  have hchk : m.couplingCheck link = some true := by
    unfold MPNet.couplingCheck
    rw [if_pos hfull]
  simp [MPNet.getLink, hD, hk, hreg2, hchk, hc2]

/-- Witness for C10 on `mpC10`: node 5 is registered but the layers 1 and 2
have never been added to slice 1, and the coupling link still answers 1. -/
theorem C10_witness : mpC10.getLink [5, 5, 1, 2] = some 1 ∧ mpC10.slices = [[5], []] :=
  ⟨C10_categorical_ignores_layer_registration mpC10 [5, 5, 1, 2] 1 1 (by decide)
    (by decide) (by decide) (by decide) (by decide), by decide⟩

end Pymnet

namespace Pymnet

/-! ### `_set_link` characterization lemmas -/

theorem aset_isSome {α β : Type} [DecidableEq α] (l : List (α × β)) (k k' : α) (v : β) :
    (alookup (aset l k v) k').isSome = if k' = k then true else (alookup l k').isSome := by
  by_cases h : k' = k
  · subst h
    rw [alookup_aset_self, if_pos rfl]
    rfl
  · rw [alookup_aset_ne l k k' v h, if_neg h]

theorem alookup2_net (m : MNet) (X : List (Node × List (Node × Wt))) (u w : Node) :
    alookup2 { m with net := X } u w = nlookup2 X u w := rfl

theorem nlookup2_writeEdge (net : List (Node × List (Node × Wt))) (n a : Node) (v : Wt)
    (hn : (alookup net n).isSome) (u w : Node) :
    nlookup2 (writeEdge net n a v) u w =
      if u = n ∧ w = a then some v
      else if u = n then alookup ((alookup net n).getD []) w
      else nlookup2 net u w := by
  obtain ⟨d, hd⟩ := Option.isSome_iff_exists.mp hn
  unfold writeEdge
  rw [hd]
  simp only [Option.getD_some]
  unfold nlookup2
  by_cases hu : u = n
  · subst hu
    rw [alookup_aset_self, Option.some_bind]
    by_cases hw : w = a
    · subst hw
      rw [alookup_aset_self, if_pos ⟨rfl, rfl⟩]
    · rw [alookup_aset_ne _ _ _ _ hw, if_neg (fun hc => hw hc.2), if_pos rfl]
  · rw [alookup_aset_ne _ _ _ _ hu, if_neg (fun hc => hu hc.1), if_neg hu]

theorem nlookup2_erase (net : List (Node × List (Node × Wt))) (n a : Node)
    (d : List (Node × Wt)) (hd : alookup net n = some d) (u w : Node) :
    nlookup2 (aset net n (aerase d a)) u w =
      if u = n ∧ w = a then none else nlookup2 net u w := by
  unfold nlookup2
  by_cases hu : u = n
  · subst hu
    rw [alookup_aset_self, Option.some_bind, hd, Option.some_bind]
    by_cases hw : w = a
    · subst hw
      rw [alookup_aerase_self, if_pos ⟨rfl, rfl⟩]
    · rw [alookup_aerase_ne _ _ _ hw, if_neg (fun hc => hw hc.2)]
  · rw [alookup_aset_ne _ _ _ _ hu, if_neg (fun hc => hu hc.1)]

theorem nlookup2_ensureKey (net : List (Node × List (Node × Wt))) (n : Node) (u w : Node) :
    nlookup2 (ensureKey net n) u w = nlookup2 net u w := by
  unfold ensureKey
  split
  · rfl
  · unfold nlookup2
    rw [alookup_append_single]
    cases hnu : alookup net u with
    | some d => rfl
    | none =>
        by_cases h : n = u
        · simp [h, alookup_nil]
        · simp [h]

theorem ensureKey_isSome (net : List (Node × List (Node × Wt))) (n u : Node) :
    (alookup (ensureKey net n) u).isSome =
      if u = n then true else (alookup net u).isSome := by
  unfold ensureKey
  split
  · rename_i h
    by_cases hu : u = n
    · subst hu
      simp [h]
    · rw [if_neg hu]
  · rw [alookup_append_single]
    cases hnu : alookup net u with
    | some d => simp [hnu]
    | none =>
        by_cases hu : u = n
        · subst hu
          simp
        · simp [Ne.symm hu, hu, hnu]

theorem ensureKey_lookup_of_isSome (net : List (Node × List (Node × Wt))) (n u : Node)
    (h : (alookup net u).isSome) : alookup (ensureKey net n) u = alookup net u := by
  unfold ensureKey
  split
  · rfl
  · rw [alookup_append_single]
    obtain ⟨d, hd⟩ := Option.isSome_iff_exists.mp h
    rw [hd]

/-- Fields other than `_net` are untouched by `_set_link`. -/
theorem setLink_fields (m : MNet) (link : List Int) (v : Wt) :
    (m.setLink link v).1.aspects = m.aspects ∧ (m.setLink link v).1.noEdge = m.noEdge ∧
    (m.setLink link v).1.directed = m.directed ∧ (m.setLink link v).1.slices = m.slices := by
  unfold MNet.setLink
  dsimp only
  repeat' split
  all_goals simp

/-- After `_set_link(link, v)` with a non-sentinel `v`, the adjacency holds
`v` at `(node1, node2)` (and at the mirror when undirected) and is otherwise
unchanged. -/
theorem setLink_set_lookup2 (m : MNet) (link : List Int) (v : Wt)
    (hv : ¬ v = m.noEdge) (u w : Node) :
    alookup2 (m.setLink link v).1 u w =
      (if m.directed = false ∧ u = (linkToNodes link).2 ∧ w = (linkToNodes link).1
       then some v
       else if u = (linkToNodes link).1 ∧ w = (linkToNodes link).2 then some v
       else alookup2 m u w) := by
  have h1s : (alookup (ensureKey (ensureKey m.net (linkToNodes link).1)
      (linkToNodes link).2) (linkToNodes link).1).isSome := by
    rw [ensureKey_isSome]
    split
    · rfl
    · rw [ensureKey_isSome, if_pos rfl]
  have hbase : ∀ x y, nlookup2 (ensureKey (ensureKey m.net (linkToNodes link).1)
      (linkToNodes link).2) x y = alookup2 m x y := by
    intro x y
    rw [nlookup2_ensureKey, nlookup2_ensureKey]
    rfl
  have hmid : ∀ x y, nlookup2 (writeEdge (ensureKey (ensureKey m.net (linkToNodes link).1)
        (linkToNodes link).2) (linkToNodes link).1 (linkToNodes link).2 v) x y =
      if x = (linkToNodes link).1 ∧ y = (linkToNodes link).2 then some v
      else alookup2 m x y := by
    intro x y
    rw [nlookup2_writeEdge _ _ _ _ h1s]
    by_cases hxy : x = (linkToNodes link).1 ∧ y = (linkToNodes link).2
    · rw [if_pos hxy, if_pos hxy]
    · rw [if_neg hxy, if_neg hxy]
      by_cases hx : x = (linkToNodes link).1
      · rw [if_pos hx]
        obtain ⟨d, hd⟩ := Option.isSome_iff_exists.mp h1s
        rw [hd]
        have hb := hbase (linkToNodes link).1 y
        unfold nlookup2 at hb
        rw [hd, Option.some_bind] at hb
        rw [hx]
        simpa using hb
      · rw [if_neg hx]
        exact hbase x y
  have hnet : (m.setLink link v).1.net =
      (if m.directed = true
       then writeEdge (ensureKey (ensureKey m.net (linkToNodes link).1)
         (linkToNodes link).2) (linkToNodes link).1 (linkToNodes link).2 v
       else writeEdge (writeEdge (ensureKey (ensureKey m.net (linkToNodes link).1)
         (linkToNodes link).2) (linkToNodes link).1 (linkToNodes link).2 v)
         (linkToNodes link).2 (linkToNodes link).1 v) := by
    unfold MNet.setLink
    rw [if_neg hv]
    dsimp only
    split
    · rfl
    · rfl
  show nlookup2 (m.setLink link v).1.net u w = _
  rw [hnet]
  by_cases hdir : m.directed = true
  · rw [if_pos hdir, hmid u w, hdir]
    simp only [Bool.true_eq_false, false_and, if_false]
  · rw [if_neg hdir]
    have hdirf : m.directed = false := by
      cases hb : m.directed
      · rfl
      · exact absurd hb hdir
    have h2s : (alookup (writeEdge (ensureKey (ensureKey m.net (linkToNodes link).1)
        (linkToNodes link).2) (linkToNodes link).1 (linkToNodes link).2 v)
        (linkToNodes link).2).isSome := by
      unfold writeEdge
      rw [aset_isSome]
      split
      · rfl
      · rw [ensureKey_isSome, if_pos rfl]
    rw [nlookup2_writeEdge _ _ _ _ h2s]
    rw [hdirf]
    simp only [true_and]
    by_cases hm : u = (linkToNodes link).2 ∧ w = (linkToNodes link).1
    · rw [if_pos hm, if_pos hm]
    · rw [if_neg hm, if_neg hm]
      by_cases hu2 : u = (linkToNodes link).2
      · rw [if_pos hu2]
        obtain ⟨d3, hd3⟩ := Option.isSome_iff_exists.mp h2s
        rw [hd3]
        have hm2 := hmid (linkToNodes link).2 w
        unfold nlookup2 at hm2
        rw [hd3, Option.some_bind] at hm2
        rw [hu2]
        simpa using hm2
      · rw [if_neg hu2]
        exact hmid u w

end Pymnet

namespace Pymnet

theorem alookup2_none_of_outer {m : MNet} {x : Node} (h : alookup m.net x = none) (y : Node) :
    alookup2 m x y = none := by
  unfold alookup2 nlookup2
  rw [h, Option.none_bind]

theorem alookup2_eq_inner {m : MNet} {x : Node} {d : List (Node × Wt)}
    (h : alookup m.net x = some d) (y : Node) : alookup2 m x y = alookup d y := by
  unfold alookup2 nlookup2
  rw [h, Option.some_bind]

/-- Deleting a link in a directed store clears exactly the `(node1, node2)`
adjacency entry. -/
theorem setLink_del_lookup2_dir (m : MNet) (link : List Int) (hdir : m.directed = true)
    (u w : Node) :
    alookup2 (m.setLink link m.noEdge).1 u w =
      if u = (linkToNodes link).1 ∧ w = (linkToNodes link).2 then none
      else alookup2 m u w := by
  unfold MNet.setLink
  rw [if_pos rfl]
  dsimp only
  cases h1 : alookup m.net (linkToNodes link).1 with
  | none =>
      dsimp only
      by_cases hc : u = (linkToNodes link).1 ∧ w = (linkToNodes link).2
      · rw [if_pos hc, hc.1, hc.2]
        exact alookup2_none_of_outer h1 _
      · rw [if_neg hc]
  | some d1 =>
      dsimp only
      cases h2 : (alookup d1 (linkToNodes link).2).isSome with
      | false =>
          rw [if_neg Bool.false_ne_true]
          dsimp only
          have hnone : alookup d1 (linkToNodes link).2 = none := by
            cases hx : alookup d1 (linkToNodes link).2 with
            | none => rfl
            | some z =>
                rw [hx] at h2
                simp at h2
          by_cases hc : u = (linkToNodes link).1 ∧ w = (linkToNodes link).2
          · rw [if_pos hc, hc.1, hc.2, alookup2_eq_inner h1, hnone]
          · rw [if_neg hc]
      | true =>
          rw [if_pos rfl, hdir, if_pos rfl]
          exact nlookup2_erase m.net _ _ d1 h1 u w

/-- Deleting a link in an undirected store with a symmetric adjacency clears
exactly the `(node1, node2)` entry and its mirror. -/
theorem setLink_del_lookup2_undir (m : MNet) (link : List Int)
    (hdir : m.directed = false)
    (hSym : ∀ x y, alookup2 m x y = alookup2 m y x) (u w : Node) :
    alookup2 (m.setLink link m.noEdge).1 u w =
      if (u = (linkToNodes link).1 ∧ w = (linkToNodes link).2)
          ∨ (u = (linkToNodes link).2 ∧ w = (linkToNodes link).1) then none
      else alookup2 m u w := by
  unfold MNet.setLink
  rw [if_pos rfl]
  dsimp only
  cases h1 : alookup m.net (linkToNodes link).1 with
  | none =>
      dsimp only
      have hn12 : alookup2 m (linkToNodes link).1 (linkToNodes link).2 = none :=
        alookup2_none_of_outer h1 _
      have hn21 : alookup2 m (linkToNodes link).2 (linkToNodes link).1 = none := by
        rw [hSym]
        exact hn12
      by_cases hc : (u = (linkToNodes link).1 ∧ w = (linkToNodes link).2)
          ∨ (u = (linkToNodes link).2 ∧ w = (linkToNodes link).1)
      · rw [if_pos hc]
        rcases hc with hc | hc
        · rw [hc.1, hc.2]
          exact hn12
        · rw [hc.1, hc.2]
          exact hn21
      · rw [if_neg hc]
  | some d1 =>
      dsimp only
      cases h2 : (alookup d1 (linkToNodes link).2).isSome with
      | false =>
          rw [if_neg Bool.false_ne_true]
          dsimp only
          have hnone : alookup d1 (linkToNodes link).2 = none := by
            cases hx : alookup d1 (linkToNodes link).2 with
            | none => rfl
            | some z =>
                rw [hx] at h2
                simp at h2
          have hn12 : alookup2 m (linkToNodes link).1 (linkToNodes link).2 = none := by
            rw [alookup2_eq_inner h1, hnone]
          have hn21 : alookup2 m (linkToNodes link).2 (linkToNodes link).1 = none := by
            rw [hSym]
            exact hn12
          by_cases hc : (u = (linkToNodes link).1 ∧ w = (linkToNodes link).2)
              ∨ (u = (linkToNodes link).2 ∧ w = (linkToNodes link).1)
          · rw [if_pos hc]
            rcases hc with hc | hc
            · rw [hc.1, hc.2]
              exact hn12
            · rw [hc.1, hc.2]
              exact hn21
          · rw [if_neg hc]
      | true =>
          rw [if_pos rfl, hdir]
          rw [if_neg Bool.false_ne_true]
          by_cases h12 : (linkToNodes link).2 = (linkToNodes link).1
          · have hscr : alookup (aset m.net (linkToNodes link).1
                (aerase d1 (linkToNodes link).2)) (linkToNodes link).2 =
                some (aerase d1 (linkToNodes link).2) := by
              rw [h12, alookup_aset_self]
            rw [hscr]
            dsimp only
            have hnone : (alookup (aerase d1 (linkToNodes link).2) (linkToNodes link).1).isSome
                = false := by
              rw [← h12, alookup_aerase_self]
              rfl
            rw [hnone, if_neg Bool.false_ne_true]
            dsimp only
            have hform := nlookup2_erase m.net (linkToNodes link).1
              (linkToNodes link).2 d1 h1 u w
            show nlookup2 _ u w = _
            rw [hform]
            by_cases hc : u = (linkToNodes link).1 ∧ w = (linkToNodes link).2
            · rw [if_pos hc, if_pos (Or.inl hc)]
            · have hc2 : ¬ (u = (linkToNodes link).2 ∧ w = (linkToNodes link).1) := by
                intro hb
                exact hc ⟨by rw [hb.1, h12], by rw [hb.2, ← h12]⟩
              rw [if_neg hc,
                if_neg (by intro hb; rcases hb with hb | hb; exacts [hc hb, hc2 hb])]
              rfl
          · have hs := hSym (linkToNodes link).2 (linkToNodes link).1
            rw [alookup2_eq_inner h1] at hs
            obtain ⟨w0, hw0⟩ := Option.isSome_iff_exists.mp h2
            have hscr : alookup (aset m.net (linkToNodes link).1
                (aerase d1 (linkToNodes link).2)) (linkToNodes link).2 =
                alookup m.net (linkToNodes link).2 :=
              alookup_aset_ne _ _ _ _ h12
            cases h3 : alookup m.net (linkToNodes link).2 with
            | none =>
                rw [alookup2_none_of_outer h3, hw0] at hs
                exact absurd hs.symm (by simp)
            | some d2 =>
                rw [alookup2_eq_inner h3, hw0] at hs
                have h4 : (alookup d2 (linkToNodes link).1).isSome = true := by
                  rw [hs]
                  rfl
                rw [h3] at hscr
                rw [hscr]
                dsimp only
                rw [h4, if_pos rfl]
                have hout := nlookup2_erase (aset m.net (linkToNodes link).1
                    (aerase d1 (linkToNodes link).2)) (linkToNodes link).2
                    (linkToNodes link).1 d2 hscr u w
                show nlookup2 _ u w = _
                rw [hout]
                by_cases hc2 : u = (linkToNodes link).2 ∧ w = (linkToNodes link).1
                · rw [if_pos hc2, if_pos (Or.inr hc2)]
                · rw [if_neg hc2]
                  have hinner := nlookup2_erase m.net (linkToNodes link).1
                    (linkToNodes link).2 d1 h1 u w
                  show nlookup2 _ u w = _
                  rw [hinner]
                  by_cases hc1 : u = (linkToNodes link).1 ∧ w = (linkToNodes link).2
                  · rw [if_pos hc1, if_pos (Or.inl hc1)]
                  · rw [if_neg hc1,
                      if_neg (by intro hb; rcases hb with hb | hb; exacts [hc1 hb, hc2 hb])]
                    rfl

end Pymnet

namespace Pymnet

theorem getLink_eq_lookup2 (m : MNet) (link : List Int) :
    m.getLink link =
      (alookup2 m (linkToNodes link).1 (linkToNodes link).2).getD m.noEdge := by
  unfold MNet.getLink
  cases h1 : alookup m.net (linkToNodes link).1 with
  | none =>
      rw [alookup2_none_of_outer h1]
      rfl
  | some d =>
      rw [alookup2_eq_inner h1]
      dsimp only
      cases h2 : alookup d (linkToNodes link).2 with
      | none => rfl
      | some w => rfl

/-- Every store reachable from an undirected construction stays undirected
and keeps its adjacency dictionary symmetric. -/
theorem reach_undirected_sym (m : MNet) (h : MNetReach m) :
    m.directed = false ∧ ∀ u v, alookup2 m u v = alookup2 m v u := by
  induction h with
  | init a ne => exact ⟨rfl, fun u v => rfl⟩
  | addNode node aspect h ih => exact ⟨ih.1, fun u v => ih.2 u v⟩
  | setLink link v h ih =>
      rename_i m0
      refine ⟨by rw [(setLink_fields m0 link v).2.2.1]; exact ih.1, ?_⟩
      intro u w
      by_cases hv : v = m0.noEdge
      · subst hv
        rw [setLink_del_lookup2_undir m0 link ih.1 ih.2 u w,
          setLink_del_lookup2_undir m0 link ih.1 ih.2 w u]
        by_cases hc : (u = (linkToNodes link).1 ∧ w = (linkToNodes link).2)
            ∨ (u = (linkToNodes link).2 ∧ w = (linkToNodes link).1)
        · rw [if_pos hc, if_pos (by tauto)]
        · rw [if_neg hc, if_neg (by tauto)]
          exact ih.2 u w
      · rw [setLink_set_lookup2 m0 link v hv u w, setLink_set_lookup2 m0 link v hv w u]
        rw [ih.1]
        simp only [true_and]
        by_cases hm : u = (linkToNodes link).2 ∧ w = (linkToNodes link).1
        · rw [if_pos hm]
          by_cases hm2 : w = (linkToNodes link).2 ∧ u = (linkToNodes link).1
          · rw [if_pos hm2]
          · rw [if_neg hm2, if_pos ⟨hm.2, hm.1⟩]
        · rw [if_neg hm]
          by_cases h1 : u = (linkToNodes link).1 ∧ w = (linkToNodes link).2
          · rw [if_pos h1, if_pos ⟨h1.2, h1.1⟩]
          · rw [if_neg h1, if_neg (by tauto), if_neg (by tauto)]
            exact ih.2 u w

/-- C5: in a store constructed with `directed=False`, after any sequence of
`add_node` and `_set_link` operations the adjacency is symmetric and
`_get_link` agrees on a link and on the link with its node halves swapped. -/
theorem C5_undirected_symmetry (m : MNet) (h : MNetReach m) :
    (∀ u v, alookup2 m u v = alookup2 m v u) ∧
    (∀ link : List Int, link.length % 2 = 0 →
      m.getLink link = m.getLink (swapLink link)) := by
  have hs := reach_undirected_sym m h
  refine ⟨hs.2, ?_⟩
  intro link hlen
  have hhalf : (linkToNodes link).1.length = (linkToNodes link).2.length := by
    match link, hlen with
    | [], _ => rfl
    | i :: j :: rest, hlen =>
        have hr : rest.length % 2 = 0 := by
          simp only [List.length_cons] at hlen
          omega
        simp only [linkToNodes, List.length_cons, evens_length, odds_length]
        omega
  have hroundtrip : linkToNodes (swapLink link) =
      ((linkToNodes link).2, (linkToNodes link).1) := by
    unfold swapLink
    exact linkToNodes_nodesToLink _ _ hhalf.symm
  rw [getLink_eq_lookup2 m link, getLink_eq_lookup2 m (swapLink link), hroundtrip]
  rw [hs.2 (linkToNodes link).1 (linkToNodes link).2]

/-- Witness for C5 on a small reachable undirected store. -/
theorem C5_witness :
    mnetC5.getLink [1, 2, 3, 3] = mnetC5.getLink (swapLink [1, 2, 3, 3]) ∧
    mnetC5.getLink [2, 1, 3, 3] = 5 := by
  constructor
  · exact (C5_undirected_symmetry mnetC5
      (MNetReach.setLink [1, 2, 3, 3] 5 (MNetReach.addNode 7 0
        (MNetReach.init 1 0)))).2 [1, 2, 3, 3] (by decide)
  · decide

end Pymnet

namespace Pymnet

/-! ### Product and membership lemmas -/

theorem listProd_cons_mem (s : List Int) (rest : List (List Int)) (t : List Int) :
    t ∈ listProd (s :: rest) ↔ ∃ x ∈ s, ∃ u ∈ listProd rest, t = x :: u := by
  show t ∈ s.foldr (fun x acc => (listProd rest).map (x :: ·) ++ acc) [] ↔ _
  induction s with
  | nil => simp
  | cons a s ih =>
      simp only [List.foldr_cons, List.mem_append, List.mem_map, ih, List.mem_cons]
      constructor
      · rintro (⟨u, hu, rfl⟩ | ⟨x, hx, u, hu, rfl⟩)
        · exact ⟨a, Or.inl rfl, u, hu, rfl⟩
        · exact ⟨x, Or.inr hx, u, hu, rfl⟩
      · rintro ⟨x, hx | hx, u, hu, rfl⟩
        · exact Or.inl ⟨u, hu, by rw [hx]⟩
        · exact Or.inr ⟨x, hx, u, hu, rfl⟩

theorem listProd_length_mem (L : List (List Int)) (t : List Int) (h : t ∈ listProd L) :
    t.length = L.length := by
  induction L generalizing t with
  | nil =>
      simp only [listProd, List.mem_singleton] at h
      rw [h]
      rfl
  | cons s rest ih =>
      rw [listProd_cons_mem] at h
      obtain ⟨x, hx, u, hu, rfl⟩ := h
      simp [ih u hu]

theorem mem_aset {α β : Type} [DecidableEq α] {l : List (α × β)} {k : α} {v : β}
    {p : α × β} (h : p ∈ aset l k v) : p ∈ l ∨ p = (k, v) := by
  unfold aset at h
  split at h
  · rw [List.mem_map] at h
    obtain ⟨q, hq, hqe⟩ := h
    by_cases hk : q.1 = k
    · rw [if_pos hk] at hqe
      exact Or.inr hqe.symm
    · rw [if_neg hk] at hqe
      exact Or.inl (hqe ▸ hq)
  · rw [List.mem_append] at h
    rcases h with h | h
    · exact Or.inl h
    · rw [List.mem_singleton] at h
      exact Or.inr h

theorem mem_aerase {α β : Type} [DecidableEq α] {l : List (α × β)} {k : α}
    {p : α × β} (h : p ∈ aerase l k) : p ∈ l := by
  unfold aerase at h
  exact List.mem_of_mem_filter h

/-! ### Symmetry from the entrywise mirror property -/

theorem sym_oneway {m : MNet}
    (hb : ∀ p ∈ m.net, ∀ q ∈ p.2, alookup2 m q.1 p.1 = some q.2)
    {u v : Node} {w : Wt} (h : alookup2 m u v = some w) : alookup2 m v u = some w := by
  unfold alookup2 nlookup2 at h
  cases hu : alookup m.net u with
  | none =>
      rw [hu, Option.none_bind] at h
      cases h
  | some du =>
      rw [hu, Option.some_bind] at h
      exact hb (u, du) (alookup_mem hu) (v, w) (alookup_mem h)

theorem bounded_sym_full {m : MNet}
    (hb : ∀ p ∈ m.net, ∀ q ∈ p.2, alookup2 m q.1 p.1 = some q.2) :
    ∀ u v, alookup2 m u v = alookup2 m v u := by
  intro u v
  cases hu : alookup2 m u v with
  | some w => rw [sym_oneway hb hu]
  | none =>
      cases hv : alookup2 m v u with
      | none => rfl
      | some w => rw [← hu, sym_oneway hb hv]

/-! ### Links of the emitted edge sequence -/

theorem edgesAux_mem (m : MNet) (order iterated : List Node) (e : List Int × Wt)
    (h : e ∈ m.edgesAux order iterated) :
    ∃ nd ng, nd ∈ order ∧ ng ∈ m.iterNeighbors nd none ∧
      e.1 = nodesToLink nd ng ∧ e.2 = m.getLink (nodesToLink nd ng) := by
  induction order generalizing iterated with
  | nil => cases h
  | cons nd rest ih =>
      unfold MNet.edgesAux at h
      rw [List.mem_append] at h
      rcases h with h | h
      · rw [List.mem_map] at h
        obtain ⟨ng, hng, rfl⟩ := h
        exact ⟨nd, ng, List.mem_cons_self _ _,
          List.mem_of_mem_filter hng, rfl, rfl⟩
      · obtain ⟨nd', ng, h1, h2, h3, h4⟩ := ih (iterated ++ [nd]) h
        exact ⟨nd', ng, List.mem_cons_of_mem _ h1, h2, h3, h4⟩

theorem edgesDir_mem (m : MNet) (order : List Node) (e : List Int × Wt)
    (h : e ∈ order.foldr
      (fun node acc =>
        ((m.iterNeighbors node none).map
          (fun neigh => (nodesToLink node neigh, m.getLink (nodesToLink node neigh))))
        ++ acc) []) :
    ∃ nd ng, nd ∈ order ∧ ng ∈ m.iterNeighbors nd none ∧ e.1 = nodesToLink nd ng := by
  induction order with
  | nil => cases h
  | cons nd rest ih =>
      rw [List.foldr_cons, List.mem_append] at h
      rcases h with h | h
      · rw [List.mem_map] at h
        obtain ⟨ng, hng, rfl⟩ := h
        exact ⟨nd, ng, List.mem_cons_self _ _, hng, rfl⟩
      · obtain ⟨nd', ng, h1, h2, h3⟩ := ih h
        exact ⟨nd', ng, List.mem_cons_of_mem _ h1, h2, h3⟩

theorem edges_mem (m : MNet) (e : List Int × Wt) (h : e ∈ m.edges) :
    ∃ nd ng, nd ∈ listProd m.slices ∧ ng ∈ m.iterNeighbors nd none ∧
      e.1 = nodesToLink nd ng := by
  unfold MNet.edges at h
  split at h
  · exact edgesDir_mem m (listProd m.slices) e h
  · obtain ⟨nd, ng, h1, h2, h3, _⟩ := edgesAux_mem m _ [] e h
    exact ⟨nd, ng, h1, h2, h3⟩

theorem iterNeighbors_none_isSome (m : MNet) (nd ng : Node)
    (h : ng ∈ m.iterNeighbors nd none) : (alookup2 m nd ng).isSome := by
  unfold MNet.iterNeighbors at h
  cases hd : alookup m.net nd with
  | none =>
      rw [hd] at h
      cases h
  | some d =>
      rw [hd] at h
      unfold alookup2 nlookup2
      rw [hd, Option.some_bind]
      exact (alookup_isSome_iff_mem_akeys d ng).mpr h

end Pymnet

namespace Pymnet

theorem nodesToLink_evens_odds (l : List Int) (h : l.length % 2 = 0) :
    nodesToLink (evens l) (odds l) = l := by
  induction l using evens.induct with
  | case1 => rfl
  | case2 x => simp at h
  | case3 x y t ih =>
      have ht : t.length % 2 = 0 := by
        simp only [List.length_cons] at h
        omega
      simp only [evens, odds, nodesToLink, ih ht]

theorem nodesToLink_linkToNodes (link : List Int) (h : link.length % 2 = 0) :
    nodesToLink (linkToNodes link).1 (linkToNodes link).2 = link := by
  match link, h with
  | [], _ => rfl
  | i :: j :: rest, h =>
      have hr : rest.length % 2 = 0 := by
        simp only [List.length_cons] at h
        omega
      simp only [linkToNodes, nodesToLink, nodesToLink_evens_odds rest hr]

theorem addLinkNodes_fields (m : MNet) (link : List Int) :
    (m.addLinkNodes link).net = m.net ∧ (m.addLinkNodes link).noEdge = m.noEdge ∧
    (m.addLinkNodes link).directed = m.directed ∧
    (m.addLinkNodes link).aspects = m.aspects ∧
    (m.addLinkNodes link).slices.length = m.slices.length := by
  unfold MNet.addLinkNodes
  generalize List.range (2 * (m.aspects + 1)) = L
  induction L generalizing m with
  | nil => exact ⟨rfl, rfl, rfl, rfl, rfl⟩
  | cons i t ih =>
      rw [List.foldl_cons]
      have h := ih (m.addNode (link.getD i 0) (i / 2))
      refine ⟨h.1, h.2.1, h.2.2.1, h.2.2.2.1, ?_⟩
      rw [h.2.2.2.2]
      show (m.slices.set _ _).length = _
      rw [List.length_set]

theorem innerlen_del (m : MNet) (link : List Int) (n : Nat)
    (hI : ∀ p ∈ m.net, ∀ q ∈ p.2, q.1.length = n) :
    ∀ p ∈ (m.setLink link m.noEdge).1.net, ∀ q ∈ p.2, q.1.length = n := by
  have haux : ∀ (l : List (Node × List (Node × Wt))) (k : Node) (d : List (Node × Wt)) (a : Node),
      (∀ p ∈ l, ∀ q ∈ p.2, q.1.length = n) → alookup l k = some d →
      ∀ p ∈ aset l k (aerase d a), ∀ q ∈ p.2, q.1.length = n := by
    intro l k d a hP hd p hp q hq
    rcases mem_aset hp with hp | hp
    · exact hP p hp q hq
    · rw [hp] at hq
      exact hP (k, d) (alookup_mem hd) q (mem_aerase hq)
  unfold MNet.setLink
  rw [if_pos rfl]
  dsimp only
  cases h1 : alookup m.net (linkToNodes link).1 with
  | none => exact hI
  | some d1 =>
      dsimp only
      cases h2 : (alookup d1 (linkToNodes link).2).isSome with
      | false =>
          rw [if_neg Bool.false_ne_true]
          exact hI
      | true =>
          rw [if_pos rfl]
          split
          · exact haux m.net _ d1 _ hI h1
          · cases h3 : alookup (aset m.net (linkToNodes link).1
                (aerase d1 (linkToNodes link).2)) (linkToNodes link).2 with
            | none => exact haux m.net _ d1 _ hI h1
            | some d2 =>
                dsimp only
                cases h4 : (alookup d2 (linkToNodes link).1).isSome with
                | false =>
                    rw [if_neg Bool.false_ne_true]
                    exact haux m.net _ d1 _ hI h1
                | true =>
                    rw [if_pos rfl]
                    exact haux _ _ d2 _ (haux m.net _ d1 _ hI h1) h3

theorem iterNeighbors_none_len (m : MNet) (nd ng : Node) (n : Nat)
    (hI : ∀ p ∈ m.net, ∀ q ∈ p.2, q.1.length = n)
    (h : ng ∈ m.iterNeighbors nd none) : ng.length = n := by
  unfold MNet.iterNeighbors at h
  cases hd : alookup m.net nd with
  | none =>
      rw [hd] at h
      cases h
  | some d =>
      rw [hd] at h
      unfold akeys at h
      rw [List.mem_map] at h
      obtain ⟨q, hq, hqe⟩ := h
      rw [← hqe]
      exact hI (nd, d) (alookup_mem hd) q hq

end Pymnet

namespace Pymnet

/-- C2 (amended): on a well-formed general `MultilayerNetwork` store, after
the public set operation writes `v ≠ noEdge` the link reads back as `v`, and
after it writes the sentinel the link reads back as the sentinel and neither
the link nor (in an undirected store) its mirror appears in the emitted edge
sequence.  (The multiplex subclass with a nonzero sentinel violates the
original claim: its intra-layer stores are built with the default sentinel
0, see the counterexample.) -/
theorem C2_write_read_consistency (m : MNet) (link : List Int) (v : Wt)
    (hL : link.length = 2 * (m.aspects + 1))
    (hS : m.slices.length = m.aspects + 1)
    (hI : ∀ p ∈ m.net, ∀ q ∈ p.2, q.1.length = m.aspects + 1)
    (hSym : m.directed = false → ∀ p ∈ m.net, ∀ q ∈ p.2, alookup2 m q.1 p.1 = some q.2) :
    (m.setitem link v).1.getLink link = (if v = m.noEdge then m.noEdge else v) ∧
    (v = m.noEdge →
      (∀ e ∈ (m.setitem link v).1.edges, e.1 ≠ link) ∧
      (m.directed = false → ∀ e ∈ (m.setitem link v).1.edges, e.1 ≠ swapLink link)) := by
  have hFa := addLinkNodes_fields m link
  have hm' : (m.setitem link v).1 = ((m.addLinkNodes link).setLink link v).1 := by
    unfold MNet.setitem
    rw [if_pos (Or.inl hL), if_pos hL]
  have hFs := setLink_fields (m.addLinkNodes link) link v
  have hne : (m.addLinkNodes link).noEdge = m.noEdge := hFa.2.1
  have hnet1 : (m.addLinkNodes link).net = m.net := hFa.1
  have hdir1 : (m.addLinkNodes link).directed = m.directed := hFa.2.2.1
  have halook : ∀ x y, alookup2 (m.addLinkNodes link) x y = alookup2 m x y := by
    intro x y
    unfold alookup2
    rw [hnet1]
  have hsymfull : m.directed = false →
      ∀ x y, alookup2 (m.addLinkNodes link) x y = alookup2 (m.addLinkNodes link) y x := by
    intro hd x y
    rw [halook, halook]
    exact bounded_sym_full (hSym hd) x y
  have hlens := linkToNodes_lengths link m.aspects hL
  constructor
  · rw [hm', getLink_eq_lookup2]
    by_cases hv : v = m.noEdge
    · rw [if_pos hv]
      have hv1 : v = (m.addLinkNodes link).noEdge := by rw [hne, hv]
      rw [hv1]
      cases hd : m.directed with
      | true =>
          rw [setLink_del_lookup2_dir (m.addLinkNodes link) link (by rw [hdir1, hd]),
            if_pos ⟨rfl, rfl⟩]
          rw [(setLink_fields (m.addLinkNodes link) link
            (m.addLinkNodes link).noEdge).2.1, hne]
          rfl
      | false =>
          rw [setLink_del_lookup2_undir (m.addLinkNodes link) link (by rw [hdir1, hd])
            (hsymfull hd), if_pos (Or.inl ⟨rfl, rfl⟩)]
          rw [(setLink_fields (m.addLinkNodes link) link
            (m.addLinkNodes link).noEdge).2.1, hne]
          rfl
    · rw [if_neg hv]
      have hv1 : ¬ v = (m.addLinkNodes link).noEdge := by rw [hne]; exact hv
      rw [setLink_set_lookup2 (m.addLinkNodes link) link v hv1]
      by_cases hfirst : (m.addLinkNodes link).directed = false
          ∧ (linkToNodes link).1 = (linkToNodes link).2
          ∧ (linkToNodes link).2 = (linkToNodes link).1
      · rw [if_pos hfirst]
        rfl
      · rw [if_neg hfirst, if_pos ⟨rfl, rfl⟩]
        rfl
  · intro hv
    have hv1 : v = (m.addLinkNodes link).noEdge := by rw [hne, hv]
    subst hv
    rw [hm']
    set m1 := m.addLinkNodes link with hm1
    set m2 := (m1.setLink link m.noEdge).1 with hm2
    have hnoe2 : m.noEdge = m1.noEdge := hne.symm
    have hI1 : ∀ p ∈ m1.net, ∀ q ∈ p.2, q.1.length = m.aspects + 1 := by
      rw [hnet1]
      exact hI
    have hI2 : ∀ p ∈ m2.net, ∀ q ∈ p.2, q.1.length = m.aspects + 1 := by
      rw [hm2, hnoe2]
      exact innerlen_del m1 link (m.aspects + 1) hI1
    have hS2 : m2.slices.length = m.aspects + 1 := by
      rw [hm2, hnoe2, (setLink_fields m1 link m1.noEdge).2.2.2]
      rw [hm1, hFa.2.2.2.2]
      exact hS
    have hchar : ∀ x y, alookup2 m2 x y =
        (if m.directed = true
         then (if x = (linkToNodes link).1 ∧ y = (linkToNodes link).2 then none
           else alookup2 m1 x y)
         else (if (x = (linkToNodes link).1 ∧ y = (linkToNodes link).2)
             ∨ (x = (linkToNodes link).2 ∧ y = (linkToNodes link).1) then none
           else alookup2 m1 x y)) := by
      intro x y
      cases hd : m.directed with
      | true =>
          rw [if_pos rfl, hm2, hnoe2,
            setLink_del_lookup2_dir m1 link (by rw [hm1, hdir1, hd])]
      | false =>
          rw [if_neg Bool.false_ne_true, hm2, hnoe2,
            setLink_del_lookup2_undir m1 link (by rw [hm1, hdir1, hd]) (hsymfull hd)]
    have habsent : ∀ x y, (x = (linkToNodes link).1 ∧ y = (linkToNodes link).2)
        ∨ (m.directed = false ∧ x = (linkToNodes link).2 ∧ y = (linkToNodes link).1) →
        alookup2 m2 x y = none := by
      intro x y hxy
      rw [hchar x y]
      cases hd : m.directed with
      | true =>
          rw [if_pos rfl]
          rcases hxy with hxy | hxy
          · rw [if_pos hxy]
          · rw [hd] at hxy
            exact absurd hxy.1 (by simp)
      | false =>
          rw [if_neg Bool.false_ne_true]
          rcases hxy with hxy | hxy
          · rw [if_pos (Or.inl hxy)]
          · rw [if_pos (Or.inr hxy.2)]
    have hmain : ∀ e ∈ m2.edges, ∀ x y,
        (x = (linkToNodes link).1 ∧ y = (linkToNodes link).2)
          ∨ (m.directed = false ∧ x = (linkToNodes link).2 ∧ y = (linkToNodes link).1) →
        e.1 ≠ nodesToLink x y := by
      intro e he x y hxy hcontra
      obtain ⟨nd, ng, hnd, hng, hlink⟩ := edges_mem m2 e he
      have hndlen : nd.length = m.aspects + 1 := by
        rw [listProd_length_mem m2.slices nd hnd, hS2]
      have hnglen : ng.length = m.aspects + 1 := iterNeighbors_none_len m2 nd ng _ hI2 hng
      have hxlen : x.length = m.aspects + 1 := by
        rcases hxy with hxy | hxy
        · rw [hxy.1, hlens.1]
        · rw [hxy.2.1, hlens.2]
      have hylen : y.length = m.aspects + 1 := by
        rcases hxy with hxy | hxy
        · rw [hxy.2, hlens.2]
        · rw [hxy.2.2, hlens.1]
      rw [hlink] at hcontra
      obtain ⟨hx, hy⟩ := nodesToLink_inj (hndlen.trans hnglen.symm)
        (hxlen.trans hylen.symm) hcontra
      have hsome := iterNeighbors_none_isSome m2 nd ng hng
      rw [hx, hy] at hsome
      rw [habsent x y hxy] at hsome
      cases hsome
    refine ⟨?_, ?_⟩
    · intro e he hcontra
      have hlink : link = nodesToLink (linkToNodes link).1 (linkToNodes link).2 :=
        (nodesToLink_linkToNodes link (by omega)).symm
      exact hmain e he (linkToNodes link).1 (linkToNodes link).2 (Or.inl ⟨rfl, rfl⟩)
        (hcontra.trans hlink)
    · intro hd e he hcontra
      exact hmain e he (linkToNodes link).2 (linkToNodes link).1 (Or.inr ⟨hd, rfl, rfl⟩)
        hcontra

/-- Counterexample for C2 as stated: a multiplex store with sentinel 7.
Setting the intra-layer link `(1,2,4)` to the sentinel succeeds and
`get_link` answers the sentinel, yet the link is still emitted by the edge
iterator with weight 7, because the intra-layer store was created with the
default sentinel 0 and stored 7 as an ordinary weight. -/
theorem C2_counterexample :
    mpC2.noEdge = 7 ∧
    (mpC2a.setitem [1, 2, 4] 7).2 = none ∧
    mpC2.getLink [1, 2, 4, 4] = some mpC2.noEdge ∧
    mpC2.edges = some [([1, 2, 4, 4], 7)] := by
  refine ⟨rfl, by decide, by decide, by decide⟩

/-- Witness for C2 (amended) on a small well-formed undirected store. -/
theorem C2_witness :
    ((mnetC2.setitem [1, 2, 3, 3] 5).1.getLink [1, 2, 3, 3]
      = (if (5 : Wt) = mnetC2.noEdge then mnetC2.noEdge else 5)) ∧
    ((mnetC2.setitem [2, 3, 3, 3] 0).1.getLink [2, 3, 3, 3]
      = (if (0 : Wt) = mnetC2.noEdge then mnetC2.noEdge else 0)) ∧
    (∀ e ∈ (mnetC2.setitem [2, 3, 3, 3] 0).1.edges, e.1 ≠ [2, 3, 3, 3]) := by
  refine ⟨?_, ?_, ?_⟩
  · exact (C2_write_read_consistency mnetC2 [1, 2, 3, 3] 5 (by decide) (by decide)
      (by decide) (fun _ => by decide)).1
  · exact (C2_write_read_consistency mnetC2 [2, 3, 3, 3] 0 (by decide) (by decide)
      (by decide) (fun _ => by decide)).1
  · exact ((C2_write_read_consistency mnetC2 [2, 3, 3, 3] 0 (by decide) (by decide)
      (by decide) (fun _ => by decide)).2 rfl).1

end Pymnet

namespace Pymnet

/-! ### Small list helpers -/

theorem getD_set_self_int (l : List (List Int)) (i : Nat) (x : List Int)
    (h : i < l.length) : (l.set i x).getD i [] = x := by
  simp [List.getD, List.getElem?_set_self, h]

theorem getD_set_ne_int (l : List (List Int)) (i j : Nat) (x : List Int) (h : i ≠ j) :
    (l.set i x).getD j [] = l.getD j [] := by
  simp [List.getD, List.getElem?_set_ne h]

theorem getD_drop_one (l : List (List Int)) (a : Nat) :
    (l.drop 1).getD a [] = l.getD (a + 1) [] := by
  simp [List.getD, List.getElem?_drop, Nat.add_comm]

theorem mem_insertSet_self {α : Type} [DecidableEq α] (s : List α) (x : α) :
    x ∈ insertSet s x := by
  unfold insertSet
  split
  · assumption
  · simp

theorem mem_insertSet_of_mem {α : Type} [DecidableEq α] {s : List α} {y : α} (x : α)
    (h : y ∈ s) : y ∈ insertSet s x := by
  unfold insertSet
  split
  · exact h
  · simp [h]

theorem listProd_getD_mem (L : List (List Int)) (t : List Int) (h : t ∈ listProd L) :
    ∀ a, a < L.length → t.getD a 0 ∈ L.getD a [] := by
  induction L generalizing t with
  | nil =>
      intro a ha
      cases ha
  | cons s rest ih =>
      rw [listProd_cons_mem] at h
      obtain ⟨x, hx, u, hu, rfl⟩ := h
      intro a ha
      cases a with
      | zero => simpa using hx
      | succ a =>
          simp only [List.getD_cons_succ]
          exact ih u hu a (by simpa using ha)

theorem alookup_of_mem_nodup {α β : Type} [DecidableEq α] {l : List (α × β)}
    (hnd : (akeys l).Nodup) {p : α × β} (hp : p ∈ l) : alookup l p.1 = some p.2 := by
  induction l with
  | nil => cases hp
  | cons q t ih =>
      unfold akeys at hnd
      rw [List.map_cons, List.nodup_cons] at hnd
      rw [List.mem_cons] at hp
      rcases hp with hp | hp
      · rw [hp, alookup_cons, if_pos rfl]
      · rw [alookup_cons]
        have hne : ¬ q.1 = p.1 := by
          intro he
          exact hnd.1 (he ▸ (List.mem_map.mpr ⟨p, hp, rfl⟩))
        rw [if_neg hne]
        exact ih hnd.2 hp

theorem akeys_aset {α β : Type} [DecidableEq α] (l : List (α × β)) (k : α) (v : β) :
    akeys (aset l k v) = if (alookup l k).isSome then akeys l else akeys l ++ [k] := by
  unfold aset
  split
  · unfold akeys
    rw [List.map_map]
    apply List.map_congr_left
    intro p _
    by_cases hp : p.1 = k
    · simp [hp]
    · simp [hp]
  · unfold akeys
    rw [List.map_append]
    rfl

theorem akeys_aset_nodup {α β : Type} [DecidableEq α] {l : List (α × β)} (k : α) (v : β)
    (h : (akeys l).Nodup) : (akeys (aset l k v)).Nodup := by
  rw [akeys_aset]
  split
  · exact h
  · rename_i hn
    rw [List.nodup_append]
    refine ⟨h, List.nodup_singleton k, ?_⟩
    intro x hx
    rw [List.mem_singleton]
    intro he
    rw [he] at hx
    rw [← alookup_isSome_iff_mem_akeys] at hx
    exact hn hx

/-! ### Preservation of the per-combination store map `A` -/

/-- The store map of `mB` extends that of `mA`: every existing combination
keeps its exact store, and any other combination in `mB` maps to an empty
fresh store. -/
def APres (mA mB : MPNet) : Prop :=
  (∀ p ∈ mA.A, alookup mB.A p.1 = some p.2) ∧
  (∀ S sub, alookup mB.A S = some sub → alookup mA.A S = some sub ∨ sub.net = [])

theorem APres_refl (m : MPNet) (hnd : (akeys m.A).Nodup) : APres m m :=
  ⟨fun p hp => alookup_of_mem_nodup hnd hp, fun _ _ h => Or.inl h⟩

theorem APres_trans {mA mB mC : MPNet} (h1 : APres mA mB) (h2 : APres mB mC) :
    APres mA mC := by
  constructor
  · intro p hp
    exact h2.1 (p.1, p.2) (alookup_mem (h1.1 p hp))
  · intro S sub h
    rcases h2.2 S sub h with h | h
    · exact h1.2 S sub h
    · exact Or.inr h

end Pymnet

namespace Pymnet

theorem mem_aset_of_ne {α β : Type} [DecidableEq α] {l : List (α × β)} {p : α × β}
    (hp : p ∈ l) (k : α) (v : β) (hne : p.1 ≠ k) : p ∈ aset l k v := by
  unfold aset
  split
  · rw [List.mem_map]
    exact ⟨p, hp, by rw [if_neg hne]⟩
  · rw [List.mem_append]
    exact Or.inl hp

/-- The well-formedness invariants of a multiplex store map needed to show
that node registration never clobbers an existing intra-layer store. -/
def MPOkA (m : MPNet) : Prop :=
  m.slices.length = m.aspects + 1 ∧
  (akeys m.A).Nodup ∧
  (∀ p ∈ m.A, p.1.length = m.aspects ∧
    ∀ a, a < m.aspects → p.1.getD a 0 ∈ m.slices.getD (a + 1) []) ∧
  (∀ p ∈ m.A, ∀ q ∈ p.2.net, ∀ r ∈ q.2, alookup2 p.2 r.1 q.1 = some r.2)

theorem addA_fold (keys : List (List Int)) : ∀ acc : MPNet,
    (∀ x, x ∉ keys →
      alookup (keys.foldl (fun a s => a.addA s) acc).A x = alookup acc.A x) ∧
    (∀ S sub, alookup (keys.foldl (fun a s => a.addA s) acc).A S = some sub →
      alookup acc.A S = some sub ∨ (S ∈ keys ∧ sub = mnetInit 0 0 false)) ∧
    (∀ p ∈ (keys.foldl (fun a s => a.addA s) acc).A,
      p ∈ acc.A ∨ (p.1 ∈ keys ∧ p.2 = mnetInit 0 0 false)) ∧
    ((keys.foldl (fun a s => a.addA s) acc).slices = acc.slices ∧
     (keys.foldl (fun a s => a.addA s) acc).aspects = acc.aspects ∧
     (keys.foldl (fun a s => a.addA s) acc).noEdge = acc.noEdge ∧
     (keys.foldl (fun a s => a.addA s) acc).fullyInterconnected = acc.fullyInterconnected ∧
     (keys.foldl (fun a s => a.addA s) acc).nodeToLayers = acc.nodeToLayers ∧
     (keys.foldl (fun a s => a.addA s) acc).couplings = acc.couplings ∧
     (keys.foldl (fun a s => a.addA s) acc).directed = acc.directed) ∧
    ((akeys acc.A).Nodup → (akeys (keys.foldl (fun a s => a.addA s) acc).A).Nodup) := by
  induction keys with
  | nil =>
      intro acc
      exact ⟨fun x _ => rfl, fun S sub h => Or.inl h, fun p hp => Or.inl hp,
        ⟨rfl, rfl, rfl, rfl, rfl, rfl, rfl⟩, fun h => h⟩
  | cons s rest ih =>
      intro acc
      have hstep : (s :: rest).foldl (fun a s => a.addA s) acc =
          rest.foldl (fun a s => a.addA s) (acc.addA s) := rfl
      have hAacc : (acc.addA s).A = aset acc.A s (mnetInit 0 0 false) := rfl
      obtain ⟨ia, ib, ic, id, ie⟩ := ih (acc.addA s)
      rw [hstep]
      refine ⟨?_, ?_, ?_, ?_, ?_⟩
      · intro x hx
        rw [List.mem_cons] at hx
        push_neg at hx
        rw [ia x hx.2, hAacc, alookup_aset_ne _ _ _ _ hx.1]
      · intro S sub h
        rcases ib S sub h with h | h
        · rw [hAacc] at h
          by_cases hS : S = s
          · rw [hS, alookup_aset_self] at h
            exact Or.inr ⟨by rw [hS]; exact List.mem_cons_self _ _, (Option.some_inj.mp h).symm⟩
          · rw [alookup_aset_ne _ _ _ _ hS] at h
            exact Or.inl h
        · exact Or.inr ⟨List.mem_cons_of_mem _ h.1, h.2⟩
      · intro p hp
        rcases ic p hp with hp | hp
        · rw [hAacc] at hp
          rcases mem_aset hp with hp | hp
          · exact Or.inl hp
          · exact Or.inr ⟨by rw [hp]; exact List.mem_cons_self _ _, by rw [hp]⟩
        · exact Or.inr ⟨List.mem_cons_of_mem _ hp.1, hp.2⟩
      · exact ⟨id.1, id.2.1, id.2.2.1, id.2.2.2.1, id.2.2.2.2.1, id.2.2.2.2.2.1,
          id.2.2.2.2.2.2⟩
      · intro hnd
        apply ie
        rw [hAacc]
        exact akeys_aset_nodup s (mnetInit 0 0 false) hnd

end Pymnet

namespace Pymnet

/-- `MultiplexNetwork.add_node` never deletes or replaces an existing
intra-layer store: existing entries of `A` survive untouched, new entries
are empty fresh stores, and the store-map invariants are maintained. -/
theorem addNode_APres (m : MPNet) (nd : Int) (asp : Nat) (hasp : asp ≤ m.aspects)
    (hok : MPOkA m) :
    APres m (m.addNode nd asp) ∧ MPOkA (m.addNode nd asp) ∧
    (m.addNode nd asp).aspects = m.aspects := by
  obtain ⟨hS, hnd, hAK, hsub⟩ := hok
  by_cases hmem : nd ∈ m.slices.getD asp []
  · have hres : m.addNode nd asp = m := by
      unfold MPNet.addNode
      rw [if_pos hmem]
    rw [hres]
    exact ⟨APres_refl m hnd, ⟨hS, hnd, hAK, hsub⟩, rfl⟩
  · have hslen : asp < m.slices.length := by omega
    by_cases h0 : 0 < asp
    · by_cases h1 : 1 < m.aspects
      · have hres : m.addNode nd asp =
            { (listProd ((m.slices.drop 1).set (asp - 1) [nd])).foldl
                (fun a s => a.addA s) m with
              slices := ((listProd ((m.slices.drop 1).set (asp - 1) [nd])).foldl
                (fun a s => a.addA s) m).slices.set asp
                (insertSet (((listProd ((m.slices.drop 1).set (asp - 1) [nd])).foldl
                  (fun a s => a.addA s) m).slices.getD asp []) nd) } := by
          unfold MPNet.addNode
          rw [if_neg hmem]
          dsimp only
          rw [if_pos h0, if_pos h1]
        obtain ⟨fa, fb, fc, fd, fe⟩ :=
          addA_fold (listProd ((m.slices.drop 1).set (asp - 1) [nd])) m
        have hnewlen : ((m.slices.drop 1).set (asp - 1) [nd]).length = m.aspects := by
          rw [List.length_set, List.length_drop, hS]
          omega
        have hknd : ∀ S ∈ listProd ((m.slices.drop 1).set (asp - 1) [nd]),
            S.getD (asp - 1) 0 = nd := by
          intro S hSmem
          have hm := listProd_getD_mem _ S hSmem (asp - 1) (by omega)
          rw [getD_set_self_int _ _ _ (by rw [List.length_drop, hS]; omega)] at hm
          simpa using hm
        have holdne : ∀ p ∈ m.A, p.1 ∉ listProd ((m.slices.drop 1).set (asp - 1) [nd]) := by
          intro p hp hin
          have h1v := hknd p.1 hin
          have h2v := (hAK p hp).2 (asp - 1) (by omega)
          have he : (asp - 1) + 1 = asp := by omega
          rw [he, h1v] at h2v
          exact hmem h2v
        have hAeq : (m.addNode nd asp).A =
            ((listProd ((m.slices.drop 1).set (asp - 1) [nd])).foldl
              (fun a s => a.addA s) m).A := by
          rw [hres]
        have haspeq : (m.addNode nd asp).aspects = m.aspects := by
          rw [hres]
          dsimp only
          rw [fd.2.1]
        have hsliceq : (m.addNode nd asp).slices =
            m.slices.set asp (insertSet (m.slices.getD asp []) nd) := by
          rw [hres]
          dsimp only
          rw [fd.1]
        have hmemsl : ∀ a, a < m.aspects → ∀ x : Int,
            x ∈ m.slices.getD (a + 1) [] → x ∈ (m.addNode nd asp).slices.getD (a + 1) [] := by
          intro a ha x hx
          rw [hsliceq]
          by_cases hap : a + 1 = asp
          · rw [hap, getD_set_self_int _ _ _ hslen]
            exact mem_insertSet_of_mem nd (by rw [← hap]; exact hx)
          · rw [getD_set_ne_int _ _ _ _ (fun he => hap he.symm)]
            exact hx
        refine ⟨⟨?_, ?_⟩, ⟨?_, ?_, ?_, ?_⟩, ?_⟩
        · intro p hp
          rw [hAeq, fa p.1 (holdne p hp)]
          exact alookup_of_mem_nodup hnd hp
        · intro S sub h
          rw [hAeq] at h
          rcases fb S sub h with h | h
          · exact Or.inl h
          · exact Or.inr (by rw [h.2]; rfl)
        · rw [hsliceq, List.length_set, hS, haspeq]
        · rw [hAeq]
          exact fe hnd
        · intro p hp
          rw [hAeq] at hp
          rcases fc p hp with hp | hp
          · refine ⟨by rw [haspeq]; exact (hAK p hp).1, ?_⟩
            intro a ha
            rw [haspeq] at ha
            exact hmemsl a ha _ ((hAK p hp).2 a ha)
          · refine ⟨by rw [haspeq, listProd_length_mem _ _ hp.1, hnewlen], ?_⟩
            intro a ha
            rw [haspeq] at ha
            by_cases hap : a = asp - 1
            · rw [hap, hknd p.1 hp.1, hsliceq]
              have he : (asp - 1) + 1 = asp := by omega
              rw [he, getD_set_self_int _ _ _ hslen]
              exact mem_insertSet_self _ nd
            · have hm := listProd_getD_mem _ p.1 hp.1 a (by omega)
              rw [getD_set_ne_int _ _ _ _ (fun he => hap he.symm), getD_drop_one] at hm
              exact hmemsl a ha _ hm
        · intro p hp
          rw [hAeq] at hp
          rcases fc p hp with hp | hp
          · exact hsub p hp
          · intro q hq
            rw [hp.2] at hq
            cases hq
        · exact haspeq
      · have ha1 : m.aspects = 1 := by omega
        have hasp1 : asp = 1 := by omega
        have hres : m.addNode nd asp =
            { m.addA [nd] with slices := (m.addA [nd]).slices.set asp (insertSet ((m.addA [nd]).slices.getD asp []) nd) } := by
          unfold MPNet.addNode
          rw [if_neg hmem]
          dsimp only
          rw [if_pos h0, if_neg h1]
        have hAeq : (m.addNode nd asp).A = aset m.A [nd] (mnetInit 0 0 false) := by
          rw [hres]
          rfl
        have hsliceq : (m.addNode nd asp).slices =
            m.slices.set asp (insertSet (m.slices.getD asp []) nd) := by
          rw [hres]
          rfl
        have holdne : ∀ p ∈ m.A, p.1 ≠ [nd] := by
          intro p hp he
          have h2v := (hAK p hp).2 0 (by omega)
          rw [he] at h2v
          simp only [List.getD_cons_zero] at h2v
          rw [hasp1] at hmem
          exact hmem h2v
        have hmemsl : ∀ a, a < m.aspects → ∀ x : Int,
            x ∈ m.slices.getD (a + 1) [] → x ∈ (m.addNode nd asp).slices.getD (a + 1) [] := by
          intro a ha x hx
          rw [hsliceq]
          by_cases hap : a + 1 = asp
          · rw [hap, getD_set_self_int _ _ _ hslen]
            exact mem_insertSet_of_mem nd (by rw [← hap]; exact hx)
          · rw [getD_set_ne_int _ _ _ _ (fun he => hap he.symm)]
            exact hx
        have haspeq : (m.addNode nd asp).aspects = m.aspects := by
          rw [hres]
          rfl
        refine ⟨⟨?_, ?_⟩, ⟨?_, ?_, ?_, ?_⟩, haspeq⟩
        · intro p hp
          rw [hAeq, alookup_aset_ne _ _ _ _ (holdne p hp)]
          exact alookup_of_mem_nodup hnd hp
        · intro S sub h
          rw [hAeq] at h
          by_cases hs : S = [nd]
          · rw [hs, alookup_aset_self] at h
            exact Or.inr (by rw [← Option.some_inj.mp h]; rfl)
          · rw [alookup_aset_ne _ _ _ _ hs] at h
            exact Or.inl h
        · rw [hsliceq, List.length_set, hS, haspeq]
        · rw [hAeq]
          exact akeys_aset_nodup _ _ hnd
        · intro p hp
          rw [hAeq] at hp
          rcases mem_aset hp with hp | hp
          · refine ⟨by rw [haspeq]; exact (hAK p hp).1, ?_⟩
            intro a ha
            rw [haspeq] at ha
            exact hmemsl a ha _ ((hAK p hp).2 a ha)
          · refine ⟨by rw [hp, haspeq, ha1]; rfl, ?_⟩
            intro a ha
            rw [haspeq, ha1] at ha
            have ha0 : a = 0 := by omega
            rw [hp, ha0]
            simp only [List.getD_cons_zero]
            rw [hsliceq]
            have he : (0 : Nat) + 1 = asp := by omega
            rw [he, getD_set_self_int _ _ _ hslen]
            exact mem_insertSet_self _ nd
        · intro p hp
          rw [hAeq] at hp
          rcases mem_aset hp with hp | hp
          · exact hsub p hp
          · intro q hq
            rw [hp] at hq
            cases hq
    · have hres : m.addNode nd asp =
          { m with slices := m.slices.set asp (insertSet (m.slices.getD asp []) nd) } := by
        unfold MPNet.addNode
        rw [if_neg hmem]
        dsimp only
        rw [if_neg h0]
      have hasp0 : asp = 0 := by omega
      rw [hres]
      refine ⟨⟨?_, ?_⟩, ⟨?_, ?_, ?_, ?_⟩, rfl⟩
      · intro p hp
        exact alookup_of_mem_nodup hnd hp
      · intro S sub h
        exact Or.inl h
      · show (m.slices.set asp _).length = _
        rw [List.length_set, hS]
      · exact hnd
      · intro p hp
        refine ⟨(hAK p hp).1, ?_⟩
        intro a ha
        show p.1.getD a 0 ∈ (m.slices.set asp _).getD (a + 1) []
        rw [getD_set_ne_int _ _ _ _ (by omega)]
        exact (hAK p hp).2 a ha
      · exact hsub

end Pymnet

namespace Pymnet

/-- `MultilayerNetwork._set_link` never raises on a store with a symmetric
adjacency when the two endpoints differ. -/
theorem setLink_noraise (s : MNet) (link : List Int) (v : Wt)
    (hsym : ∀ x y, alookup2 s x y = alookup2 s y x)
    (hne : (linkToNodes link).1 ≠ (linkToNodes link).2) :
    (s.setLink link v).2 = false := by
  unfold MNet.setLink
  by_cases hv : v = s.noEdge
  · rw [if_pos hv]
    dsimp only
    cases h1 : alookup s.net (linkToNodes link).1 with
    | none => rfl
    | some d1 =>
        dsimp only
        cases h2 : (alookup d1 (linkToNodes link).2).isSome with
        | false =>
            rw [if_neg Bool.false_ne_true]
        | true =>
            rw [if_pos rfl]
            split
            · rfl
            · have hscr : alookup (aset s.net (linkToNodes link).1
                  (aerase d1 (linkToNodes link).2)) (linkToNodes link).2 =
                  alookup s.net (linkToNodes link).2 :=
                alookup_aset_ne _ _ _ _ (Ne.symm hne)
              have hs := hsym (linkToNodes link).2 (linkToNodes link).1
              rw [alookup2_eq_inner h1] at hs
              obtain ⟨w0, hw0⟩ := Option.isSome_iff_exists.mp h2
              cases h3 : alookup s.net (linkToNodes link).2 with
              | none =>
                  rw [alookup2_none_of_outer h3, hw0] at hs
                  exact absurd hs.symm (by simp)
              | some d2 =>
                  rw [alookup2_eq_inner h3, hw0] at hs
                  have h4 : (alookup d2 (linkToNodes link).1).isSome = true := by
                    rw [hs]
                    rfl
                  rw [h3] at hscr
                  rw [hscr]
                  dsimp only
                  rw [h4, if_pos rfl]
  · rw [if_neg hv]
    dsimp only
    split
    · rfl
    · rfl

/-- Registering all the nodes and layers of a link preserves the store map
and its invariants. -/
theorem addNode_loop (L : List Nat) (link : List Int) : ∀ m : MPNet,
    (∀ i ∈ L, i / 2 ≤ m.aspects) → MPOkA m →
    APres m (L.foldl (fun acc i => acc.addNode (link.getD i 0) (i / 2)) m) ∧
    MPOkA (L.foldl (fun acc i => acc.addNode (link.getD i 0) (i / 2)) m) ∧
    (L.foldl (fun acc i => acc.addNode (link.getD i 0) (i / 2)) m).aspects = m.aspects := by
  induction L with
  | nil =>
      intro m _ hok
      exact ⟨APres_refl m hok.2.1, hok, rfl⟩
  | cons i t ih =>
      intro m hL hok
      simp only [List.foldl_cons]
      have hstep := addNode_APres m (link.getD i 0) (i / 2)
        (hL i (List.mem_cons_self _ _)) hok
      have hrest := ih (m.addNode (link.getD i 0) (i / 2))
        (fun j hj => by rw [hstep.2.2]; exact hL j (List.mem_cons_of_mem _ hj))
        hstep.2.1
      exact ⟨APres_trans hstep.1 hrest.1, hrest.2.1, by rw [hrest.2.2, hstep.2.2]⟩

/-- C1 (amended): a failing set operation on a well-formed multiplex store
writes or erases no link weight: every existing intra-layer store keeps its
exact contents under its combination key, and any store-map entry that was
not there before is an empty fresh store (the registrations of labels in
`slices`, the node-to-layers index, and the creation of new empty stores do
happen before the validation failure). -/
theorem C1_failed_set_preserves_adjacency (m : MPNet) (item : List Int) (v : Wt)
    (err : SetErr) (hok : MPOkA m)
    (herr : (m.setitem item v).2 = some err) :
    (∀ p ∈ m.A, alookup (m.setitem item v).1.A p.1 = some p.2) ∧
    (∀ S sub, alookup (m.setitem item v).1.A S = some sub →
      alookup m.A S = some sub ∨ sub.net = []) := by
  by_cases harity : item.length = 2 * (m.aspects + 1) ∨ item.length = (m.aspects + 1) + 1
  · have hres : m.setitem item v =
        ((List.range (2 * (m.aspects + 1))).foldl
          (fun acc i => acc.addNode
            ((if item.length = 2 * (m.aspects + 1) then item
              else shortLinkToLink item).getD i 0) (i / 2)) m).setLink
          (if item.length = 2 * (m.aspects + 1) then item else shortLinkToLink item) v := by
      unfold MPNet.setitem
      rw [if_pos harity]
    have hloop := addNode_loop (List.range (2 * (m.aspects + 1)))
      (if item.length = 2 * (m.aspects + 1) then item else shortLinkToLink item) m
      (fun i hi => by rw [List.mem_range] at hi; omega) hok
    rw [hres] at herr ⊢
    set m1 := (List.range (2 * (m.aspects + 1))).foldl
      (fun acc i => acc.addNode
        ((if item.length = 2 * (m.aspects + 1) then item
          else shortLinkToLink item).getD i 0) (i / 2)) m with hm1
    set link := if item.length = 2 * (m.aspects + 1) then item
      else shortLinkToLink item with hlink
    unfold MPNet.setLink at herr ⊢
    dsimp only at herr ⊢
    by_cases hds : interAspects m1.aspects link = [0]
    · rw [if_pos hds] at herr ⊢
      cases hA : m1.getA (evens (link.drop 2)) with
      | none =>
          exact ⟨hloop.1.1, hloop.1.2⟩
      | some sub =>
          exfalso
          rw [hA] at herr
          dsimp only at herr
          have hsubsym : ∀ x y, alookup2 sub x y = alookup2 sub y x := by
            apply bounded_sym_full
            exact hloop.2.1.2.2.2 (evens (link.drop 2), sub) (alookup_mem hA)
          have h01 : link.getD 0 0 ≠ link.getD 1 0 := by
            have h0mem : 0 ∈ interAspects m1.aspects link := by
              rw [hds]
              exact List.mem_cons_self _ _
            unfold interAspects at h0mem
            rw [List.mem_filter] at h0mem
            have h2 := h0mem.2
            simp only [Nat.mul_zero, Nat.zero_add, decide_eq_true_eq] at h2
            exact h2
          have hne : (linkToNodes [link.getD 0 0, link.getD 1 0]).1
              ≠ (linkToNodes [link.getD 0 0, link.getD 1 0]).2 := by
            show [link.getD 0 0] ≠ [link.getD 1 0]
            intro hc
            exact h01 (List.cons.inj hc).1
          have hflag := setLink_noraise
            (((m1.subAddNode (evens (link.drop 2)) sub (link.getD 0 0)).1.subAddNode
              (evens (link.drop 2))
              (m1.subAddNode (evens (link.drop 2)) sub (link.getD 0 0)).2
              (link.getD 1 0)).2)
            [link.getD 0 0, link.getD 1 0] v (fun x y => hsubsym x y) hne
          rw [hflag] at herr
          simp at herr
    · rw [if_neg hds] at herr ⊢
      by_cases hnil : interAspects m1.aspects link = []
      · rw [if_pos hnil] at herr ⊢
        exact ⟨hloop.1.1, hloop.1.2⟩
      · rw [if_neg hnil] at herr ⊢
        exact ⟨hloop.1.1, hloop.1.2⟩
  · have hres : m.setitem item v = (m, some SetErr.arity) := by
      unfold MPNet.setitem
      rw [if_neg harity]
    rw [hres]
    exact ⟨fun p hp => alookup_of_mem_nodup hok.2.1 hp, fun S sub h => Or.inl h⟩

/-- Counterexample for C1 as stated: on a fresh fully interconnected
multiplex store, setting a coupling position fails with the read-only error
yet both the label registries and the store map `A` have changed. -/
theorem C1_counterexample :
    (mpC1.setitem [5, 5, 7, 8] 9).2 = some SetErr.readOnly ∧
    (mpC1.setitem [5, 5, 7, 8] 9).1.slices ≠ mpC1.slices ∧
    (mpC1.setitem [5, 5, 7, 8] 9).1.A ≠ mpC1.A := by
  exact ⟨by decide, by decide, by decide⟩

/-- Witness for C1 (amended) on a store with one intra-layer edge: the
failing coupling write reports the read-only error and the existing
intra-layer store for layer 3 survives untouched. -/
theorem C1_witness :
    (mpC1w.setitem [1, 1, 3, 4] 9).2 = some SetErr.readOnly ∧
    alookup (mpC1w.setitem [1, 1, 3, 4] 9).1.A [3] = some subC1 := by
  refine ⟨by decide, ?_⟩
  exact (C1_failed_set_preserves_adjacency mpC1w [1, 1, 3, 4] 9 SetErr.readOnly
    ⟨by decide, by decide, by decide, by decide⟩ (by decide)).1 ([3], subC1) (by decide)

end Pymnet

namespace Pymnet

theorem listProd_nodup (L : List (List Int)) (h : ∀ s ∈ L, s.Nodup) :
    (listProd L).Nodup := by
  induction L with
  | nil => simp [listProd]
  | cons s rest ih =>
      have hrest : (listProd rest).Nodup :=
        ih (fun t ht => h t (List.mem_cons_of_mem _ ht))
      have hs : s.Nodup := h s (List.mem_cons_self _ _)
      clear ih h
      induction s with
      | nil =>
          show (List.foldr _ [] []).Nodup
          exact List.nodup_nil
      | cons x s' ihs =>
          show ((listProd rest).map (x :: ·) ++
            s'.foldr (fun y acc => (listProd rest).map (y :: ·) ++ acc) []).Nodup
          have hxs : x ∉ s' := (List.nodup_cons.mp hs).1
          have hs' : s'.Nodup := (List.nodup_cons.mp hs).2
          refine List.Nodup.append (hrest.map List.cons_injective) (ihs hs') ?_
          intro t ht1 ht2
          rw [List.mem_map] at ht1
          obtain ⟨u, _, rfl⟩ := ht1
          have ht2' : x :: u ∈ listProd (s' :: rest) := ht2
          rw [listProd_cons_mem] at ht2'
          obtain ⟨y, hy, u', _, heq⟩ := ht2'
          exact hxs ((List.cons.inj heq).1 ▸ hy)

theorem countP_single_nodup (l : List Node) (a : Node)
    (it : List Node) (hnd : l.Nodup) (ha : a ∈ l) (hit : a ∉ it) :
    List.countP (fun x => decide (x = a) && decide (x ∉ it)) l = 1 := by
  induction l with
  | nil => cases ha
  | cons x t ih =>
      rw [List.countP_cons]
      rcases List.mem_cons.mp ha with heq | ha2
      · subst heq
        have ht0 : List.countP (fun y => decide (y = a) && decide (y ∉ it)) t = 0 := by
          refine List.countP_eq_zero.mpr ?_
          intro y hy
          have hyx : y ≠ a := fun hc => (List.nodup_cons.mp hnd).1 (hc ▸ hy)
          simp [hyx]
        rw [ht0]
        simp [hit]
      · have hxa : x ≠ a := fun hc => (List.nodup_cons.mp hnd).1 (hc ▸ ha2)
        rw [ih (List.nodup_cons.mp hnd).2 ha2]
        simp [hxa]

theorem link_match_iff (u v ng : Node) (n : Nat) (hu : u.length = n)
    (hv : v.length = n) (hng : ng.length = n) :
    (nodesToLink u ng = nodesToLink u v ∨ nodesToLink u ng = nodesToLink v u) ↔
      ng = v := by
  constructor
  · rintro (h | h)
    · exact (nodesToLink_inj (hu.trans hng.symm) (hu.trans hv.symm) h).2
    · obtain ⟨h1, h2⟩ := nodesToLink_inj (hu.trans hng.symm) (hv.trans hu.symm) h
      rw [h2, h1]
  · rintro rfl
    exact Or.inl rfl

end Pymnet

namespace Pymnet

theorem contrib_count (m : MNet) (u v nd : Node) (iterated : List Node) :
    List.countP
      (fun e => decide (e.1 = nodesToLink u v) || decide (e.1 = nodesToLink v u))
      (((m.iterNeighbors nd none).filter (fun n => decide (n ∉ iterated))).map
        (fun neigh => (nodesToLink nd neigh, m.getLink (nodesToLink nd neigh)))) =
    List.countP
      (fun ng => (decide (nodesToLink nd ng = nodesToLink u v)
        || decide (nodesToLink nd ng = nodesToLink v u)) && decide (ng ∉ iterated))
      (m.iterNeighbors nd none) := by
  rw [List.countP_map, List.countP_filter]
  rfl

theorem contrib_zero (m : MNet) (u v nd : Node) (iterated : List Node) (n : Nat)
    (hnd : nd.length = n) (hu : u.length = n) (hv : v.length = n)
    (hN : ∀ ng ∈ m.iterNeighbors nd none, ng.length = n)
    (hcu : nd = u → v ∈ iterated) (hcv : nd = v → u ∈ iterated) :
    List.countP
      (fun ng => (decide (nodesToLink nd ng = nodesToLink u v)
        || decide (nodesToLink nd ng = nodesToLink v u)) && decide (ng ∉ iterated))
      (m.iterNeighbors nd none) = 0 := by
  refine List.countP_eq_zero.mpr ?_
  intro ng hng
  have hnglen : ng.length = n := hN ng hng
  simp only [Bool.and_eq_true, Bool.or_eq_true, decide_eq_true_eq, not_and, not_or]
  intro hor hit
  rcases hor with h | h
  · obtain ⟨h1, h2⟩ := nodesToLink_inj (hnd.trans hnglen.symm) (hu.trans hv.symm) h
    exact hit (h2.symm ▸ hcu h1)
  · obtain ⟨h1, h2⟩ := nodesToLink_inj (hnd.trans hnglen.symm) (hv.trans hu.symm) h
    exact hit (h2.symm ▸ hcv h1)

theorem contrib_one_u (m : MNet) (u v : Node) (iterated : List Node) (n : Nat)
    (hu : u.length = n) (hv : v.length = n)
    (hN : ∀ ng ∈ m.iterNeighbors u none, ng.length = n)
    (hnodup : (m.iterNeighbors u none).Nodup)
    (hvN : v ∈ m.iterNeighbors u none) (hvit : v ∉ iterated) :
    List.countP
      (fun ng => (decide (nodesToLink u ng = nodesToLink u v)
        || decide (nodesToLink u ng = nodesToLink v u)) && decide (ng ∉ iterated))
      (m.iterNeighbors u none) = 1 := by
  have hcong : ∀ ng ∈ m.iterNeighbors u none,
      ((decide (nodesToLink u ng = nodesToLink u v)
        || decide (nodesToLink u ng = nodesToLink v u)) && decide (ng ∉ iterated)) =
      (decide (ng = v) && decide (ng ∉ iterated)) := by
    intro ng hng
    have := link_match_iff u v ng n hu hv (hN ng hng)
    by_cases hngv : ng = v
    · simp [hngv]
    · have h1 : ¬ (nodesToLink u ng = nodesToLink u v ∨
          nodesToLink u ng = nodesToLink v u) := fun hc => hngv (this.mp hc)
      rw [not_or] at h1
      simp [h1.1, h1.2, hngv]
  rw [List.countP_congr (fun ng hng => by rw [hcong ng hng])]
  exact countP_single_nodup _ v iterated hnodup hvN hvit

theorem contrib_one_v (m : MNet) (u v : Node) (iterated : List Node) (n : Nat)
    (hu : u.length = n) (hv : v.length = n)
    (hN : ∀ ng ∈ m.iterNeighbors v none, ng.length = n)
    (hnodup : (m.iterNeighbors v none).Nodup)
    (huN : u ∈ m.iterNeighbors v none) (huit : u ∉ iterated) :
    List.countP
      (fun ng => (decide (nodesToLink v ng = nodesToLink u v)
        || decide (nodesToLink v ng = nodesToLink v u)) && decide (ng ∉ iterated))
      (m.iterNeighbors v none) = 1 := by
  have hcong : ∀ ng ∈ m.iterNeighbors v none,
      ((decide (nodesToLink v ng = nodesToLink u v)
        || decide (nodesToLink v ng = nodesToLink v u)) && decide (ng ∉ iterated)) =
      ((decide (nodesToLink v ng = nodesToLink v u)
        || decide (nodesToLink v ng = nodesToLink u v)) && decide (ng ∉ iterated)) := by
    intro ng _
    rw [Bool.or_comm]
  rw [List.countP_congr (fun ng hng => by rw [hcong ng hng])]
  exact contrib_one_u m v u iterated n hv hu hN hnodup huN huit

end Pymnet

namespace Pymnet

theorem edgesAux_count_zero (m : MNet) (u v : Node) (n : Nat)
    (hu : u.length = n) (hv : v.length = n)
    (hIN : ∀ nd, ∀ ng ∈ m.iterNeighbors nd none, ng.length = n) :
    ∀ order iterated, (∀ x ∈ order, x.length = n) →
    (u ∉ order ∨ v ∈ iterated) → (v ∉ order ∨ u ∈ iterated) →
    List.countP
      (fun e => decide (e.1 = nodesToLink u v) || decide (e.1 = nodesToLink v u))
      (m.edgesAux order iterated) = 0 := by
  intro order
  induction order with
  | nil =>
      intro iterated _ _ _
      rw [show m.edgesAux [] iterated = [] from rfl, List.countP_nil]
  | cons nd rest ih =>
      intro iterated hlen h1 h2
      unfold MNet.edgesAux
      rw [List.countP_append, contrib_count]
      have hz : List.countP
          (fun ng => (decide (nodesToLink nd ng = nodesToLink u v)
            || decide (nodesToLink nd ng = nodesToLink v u)) && decide (ng ∉ iterated))
          (m.iterNeighbors nd none) = 0 := by
        refine contrib_zero m u v nd iterated n (hlen nd (List.mem_cons_self _ _))
          hu hv (hIN nd) ?_ ?_
        · intro hndu
          rcases h1 with h1 | h1
          · have : u ∈ nd :: rest := by
              rw [← hndu]
              exact List.mem_cons_self _ _
            exact absurd this h1
          · exact h1
        · intro hndv
          rcases h2 with h2 | h2
          · have : v ∈ nd :: rest := by
              rw [← hndv]
              exact List.mem_cons_self _ _
            exact absurd this h2
          · exact h2
      rw [hz]
      have hr := ih (iterated ++ [nd])
        (fun x hx => hlen x (List.mem_cons_of_mem _ hx)) ?_ ?_
      · rw [hr]
      · rcases h1 with h1 | h1
        · exact Or.inl (fun hc => h1 (List.mem_cons_of_mem _ hc))
        · exact Or.inr (List.mem_append_left _ h1)
      · rcases h2 with h2 | h2
        · exact Or.inl (fun hc => h2 (List.mem_cons_of_mem _ hc))
        · exact Or.inr (List.mem_append_left _ h2)

theorem edgesAux_count_one (m : MNet) (u v : Node) (n : Nat)
    (hu : u.length = n) (hv : v.length = n)
    (hIN : ∀ nd, ∀ ng ∈ m.iterNeighbors nd none, ng.length = n)
    (hND : ∀ nd, (m.iterNeighbors nd none).Nodup)
    (hvN : v ∈ m.iterNeighbors u none) (huN : u ∈ m.iterNeighbors v none) :
    ∀ order iterated, order.Nodup → (∀ x ∈ order, x.length = n) →
    u ∈ order → v ∈ order → u ∉ iterated → v ∉ iterated →
    List.countP
      (fun e => decide (e.1 = nodesToLink u v) || decide (e.1 = nodesToLink v u))
      (m.edgesAux order iterated) = 1 := by
  intro order
  induction order with
  | nil =>
      intro iterated _ _ hmem
      cases hmem
  | cons nd rest ih =>
      intro iterated hnodup hlen humem hvmem huit hvit
      unfold MNet.edgesAux
      rw [List.countP_append, contrib_count]
      by_cases hndu : nd = u
      · rw [hndu]
        rw [contrib_one_u m u v iterated n hu hv (hIN u) (hND u) hvN hvit]
        have hz := edgesAux_count_zero m u v n hu hv hIN rest (iterated ++ [u])
          (fun x hx => hlen x (List.mem_cons_of_mem _ hx))
          (Or.inl (hndu ▸ (List.nodup_cons.mp hnodup).1))
          (Or.inr (List.mem_append_right _ (List.mem_singleton.mpr rfl)))
        rw [hz]
      · by_cases hndv : nd = v
        · rw [hndv]
          rw [contrib_one_v m u v iterated n hu hv (hIN v) (hND v) huN huit]
          have hz := edgesAux_count_zero m u v n hu hv hIN rest (iterated ++ [v])
            (fun x hx => hlen x (List.mem_cons_of_mem _ hx))
            (Or.inr (List.mem_append_right _ (List.mem_singleton.mpr rfl)))
            (Or.inl (hndv ▸ (List.nodup_cons.mp hnodup).1))
          rw [hz]
        · have hz : List.countP
              (fun ng => (decide (nodesToLink nd ng = nodesToLink u v)
                || decide (nodesToLink nd ng = nodesToLink v u)) && decide (ng ∉ iterated))
              (m.iterNeighbors nd none) = 0 :=
            contrib_zero m u v nd iterated n (hlen nd (List.mem_cons_self _ _)) hu hv
              (hIN nd) (fun h => absurd h hndu) (fun h => absurd h hndv)
          rw [hz]
          have hu2 : u ∈ rest := by
            rcases List.mem_cons.mp humem with h | h
            · exact absurd h.symm hndu
            · exact h
          have hv2 : v ∈ rest := by
            rcases List.mem_cons.mp hvmem with h | h
            · exact absurd h.symm hndv
            · exact h
          have hr := ih (iterated ++ [nd]) (List.nodup_cons.mp hnodup).2
            (fun x hx => hlen x (List.mem_cons_of_mem _ hx)) hu2 hv2 ?_ ?_
          · rw [hr]
          · intro hc
            rcases List.mem_append.mp hc with hc | hc
            · exact huit hc
            · exact hndu (List.mem_singleton.mp hc).symm
          · intro hc
            rcases List.mem_append.mp hc with hc | hc
            · exact hvit hc
            · exact hndv (List.mem_singleton.mp hc).symm

/-- C9 (amended): in an undirected well-formed general `MultilayerNetwork`
store, for every adjacent pair of node coordinates the emitted edge sequence
contains the corresponding link, in exactly one of its two orientations,
exactly once.  (The partially interconnected multiplex subclass violates the
original claim over every undirected store: its `_iter_dim` ignores the
aspect argument in the categorical branch and yields the same inter-layer
neighbor once per coupling aspect, so the inherited `edges` generator emits
that coupling edge twice, see the counterexample.) -/
theorem C9_undirected_edges_once (m : MNet) (u v : Node) (w : Wt)
    (hdir : m.directed = false)
    (hsym : ∀ p ∈ m.net, ∀ q ∈ p.2, alookup2 m q.1 p.1 = some q.2)
    (hnodup : ∀ p ∈ m.net, (akeys p.2).Nodup)
    (hkeys : ∀ p ∈ m.net, p.1 ∈ listProd m.slices)
    (hslices : ∀ s ∈ m.slices, s.Nodup)
    (hI : ∀ p ∈ m.net, ∀ q ∈ p.2, q.1.length = m.slices.length)
    (hadj : alookup2 m u v = some w) :
    List.countP
      (fun e => decide (e.1 = nodesToLink u v) || decide (e.1 = nodesToLink v u))
      m.edges = 1 := by
  have hadj2 : alookup2 m v u = some w := sym_oneway hsym hadj
  have hmemN : ∀ a b z, alookup2 m a b = some z →
      a ∈ listProd m.slices ∧ b ∈ m.iterNeighbors a none := by
    intro a b z hab
    unfold alookup2 nlookup2 at hab
    cases hout : alookup m.net a with
    | none =>
        rw [hout, Option.none_bind] at hab
        cases hab
    | some da =>
        rw [hout, Option.some_bind] at hab
        refine ⟨hkeys (a, da) (alookup_mem hout), ?_⟩
        unfold MNet.iterNeighbors
        rw [hout]
        exact (alookup_isSome_iff_mem_akeys da b).mp (by rw [hab]; rfl)
  obtain ⟨hup, hvN⟩ := hmemN u v w hadj
  obtain ⟨hvp, huN⟩ := hmemN v u w hadj2
  have hIN : ∀ nd, ∀ ng ∈ m.iterNeighbors nd none, ng.length = m.slices.length :=
    fun nd ng hng => iterNeighbors_none_len m nd ng _ hI hng
  have hND : ∀ nd, (m.iterNeighbors nd none).Nodup := by
    intro nd
    unfold MNet.iterNeighbors
    cases h : alookup m.net nd with
    | none => exact List.nodup_nil
    | some d => exact hnodup (nd, d) (alookup_mem h)
  have hedges : m.edges = m.edgesAux (listProd m.slices) [] := by
    unfold MNet.edges
    rw [hdir, if_neg Bool.false_ne_true]
  rw [hedges]
  exact edgesAux_count_one m u v m.slices.length
    (listProd_length_mem m.slices u hup) (listProd_length_mem m.slices v hvp)
    hIN hND hvN huN (listProd m.slices) [] (listProd_nodup m.slices hslices)
    (fun x hx => listProd_length_mem m.slices x hx) hup hvp
    (List.not_mem_nil u) (List.not_mem_nil v)

/-- Witness for C9: on a concrete small undirected store the edge between
nodes `1` and `2` is emitted exactly once. -/
theorem C9_witness :
    List.countP
      (fun e => decide (e.1 = nodesToLink [1] [2]) || decide (e.1 = nodesToLink [2] [1]))
      mnetC9.edges = 1 :=
  C9_undirected_edges_once mnetC9 [1] [2] 5 (by decide) (by decide) (by decide)
    (by decide) (by decide) (by decide) (by decide)

end Pymnet

namespace Pymnet

/-- C6: the claimed degree/neighbor-count consistency fails on the code.  On
the two-aspect partially interconnected categorical store `c6m`, filtering to
aspect 1 the degree comes out `-1` (the categorical branch of
`_get_dim_degree` indexes the layer tuples of `_nodeToLayers` with the
aspect number although those tuples omit the node coordinate) while the
neighbor iteration produces exactly one coordinate; the strength inherits
the same `-1`; and with no filter the degree computation raises on the last
aspect while the neighbor iteration yields three coordinates, one of them
twice. -/
theorem C6_degree_neighbors_mismatch :
    c6m.getDegree [10, 5, 7] (some [some 10, none, some 7]) = some (-1) ∧
    c6m.iterNeighbors [10, 5, 7] (some [some 10, none, some 7]) = some [[10, 6, 8]] ∧
    c6m.getStrength [10, 5, 7] (some [some 10, none, some 7]) = some (-1) ∧
    c6m.getDegree [10, 5, 7] none = none ∧
    c6m.iterNeighbors [10, 5, 7] none = some [[11, 5, 7], [10, 6, 8], [10, 6, 8]] := by
  exact ⟨by decide, by decide, by decide, by decide, by decide⟩

end Pymnet

namespace Pymnet

/-- Counterexample for C9 as stated over every undirected store: on the
partially interconnected two-aspect categorical multiplex store `c9x` the
coupling edge between the adjacent coordinates `(1,5,7)` and `(1,5,8)` is
emitted twice by the inherited undirected `edges` generator. -/
theorem C9_counterexample :
    c9x.directed = false ∧
    c9x.getLink (nodesToLink [1, 5, 7] [1, 5, 8]) = some 1 ∧
    c9x.edges.isSome = true ∧
    (c9x.edges.getD []).countP
      (fun e => decide (e.1 = nodesToLink [1, 5, 7] [1, 5, 8])
        || decide (e.1 = nodesToLink [1, 5, 8] [1, 5, 7])) = 2 := by
  exact ⟨by decide, by decide, by decide, by decide⟩

end Pymnet
